import Mathlib

/-!
Verification of the egami medical-imaging converter.

This file gives a shallow embedding of the core routines of the repository:

* src/src/dcm2nii/dcm2nii.ts — series grouping/sorting, pixel-data
  concatenation (3D and 4D), NIfTI header construction and serialization;
* src/unnamed/part_003 (nii2png) — slice-plane extraction, vertical flip of
  the output raster, and scalar normalization to 8-bit;
* src/src/dcm2png/dcm2png.ts — the contrast-window heuristic.

Conventions of the embedding:

* byte buffers are modelled as List Nat (each entry a byte value);
* JavaScript numbers holding integral sample values are modelled as Int,
  JavaScript numbers used in real arithmetic as Rat (float rounding is not
  modelled; formulas are interpreted over the rationals);
* IEEE-754 binary32 header fields are carried as their 32-bit patterns
  (a Nat below 2 ^ 32); writeFloatLE then writes the pattern bytes in
  little-endian order, which is exactly what the runtime does;
* mutation of a pre-allocated Buffer is explicit state passing: writeAt
  overwrites a region of a list, the PNG raster is a Nat-indexed function
  updated pointwise;
* Array.prototype.sort with a consistent comparator produces the unique
  stable sorted order; it is modelled by List.insertionSort (stable) over
  the decidable relation induced by the comparator.
-/

namespace Egami

/-! ### Byte-level helpers (Node Buffer write primitives) -/

/-- Truncate an Int to a 16-bit two's-complement bit pattern, as JS
ToUint16 / Node writeInt16LE storage does. -/
def toBits16 (v : Int) : Nat := (v % 65536).toNat

/-- Reinterpret a 16-bit pattern as a signed 16-bit integer. -/
def ofBits16 (n : Nat) : Int :=
  if n % 65536 < 32768 then (n % 65536 : Int) else (n % 65536 : Int) - 65536

/-- Node writeInt16LE: two bytes, least significant first. -/
def bytesLE16i (v : Int) : List Nat := [toBits16 v % 256, toBits16 v / 256]

/-- Node writeInt32LE for a nonnegative value: four bytes, least
significant first. -/
def bytesLE32n (n : Nat) : List Nat :=
  [n % 256, n / 256 % 256, n / 65536 % 256, n / 16777216 % 256]

/-- Node writeFloatLE: the four bytes of the binary32 bit pattern in
little-endian order. -/
def bytesF32 (pattern : Nat) : List Nat := bytesLE32n pattern

/-- Floor of the base-2 logarithm, computed with structural fuel so that
it evaluates by kernel reduction. -/
def log2floor : Nat → Nat → Nat
  | 0, _ => 0
  | fuel + 1, n => if n < 2 then 0 else log2floor fuel (n / 2) + 1

/-- IEEE-754 binary32 bit pattern of a small natural number (exact for
values below 2 ^ 24, which covers every integral constant the header
writer stores through writeFloatLE). -/
def natToF32bits (n : Nat) : Nat :=
  if n = 0 then 0
  else
    (127 + log2floor n n) * 8388608 +
      (n * 8388608 / 2 ^ log2floor n n - 8388608)

/-- Overwrite the region of a list starting at a byte offset, as
TypedArray.prototype.set / Buffer.prototype.write do on a pre-allocated
buffer. -/
def writeAt (buf : List Nat) (offset : Nat) (data : List Nat) : List Nat :=
  buf.take offset ++ data ++ buf.drop (offset + data.length)

/-- JavaScript x || d for an optional natural-valued field: undefined and
0 are falsy and give the default. -/
def jsOr (o : Option Nat) (d : Nat) : Nat :=
  match o with
  | none => d
  | some 0 => d
  | some (k + 1) => k + 1

/-! ### Pixel payloads

The concatenation routines inspect the runtime shape of each
dataset.PixelData value.  JSPixel mirrors the shapes the source
distinguishes: an ArrayBuffer or typed-array view (raw bytes), a plain JS
array of elements (numbers or nested buffers), some other object whose
index 0 may hold a frame, or any other value. -/

inductive JSElem where
  | num (n : Int)
  | buf (data : List Nat)
deriving DecidableEq

inductive JSPixel where
  | buffer (data : List Nat)
  | jsArray (elems : List JSElem)
  | obj (firstFrame : Option JSElem)
  | other
deriving DecidableEq

/-- JS ToUint8 of a number (NaN from a non-number element becomes 0). -/
def elemToUint8 (e : JSElem) : Nat :=
  match e with
  | .num n => (n % 256).toNat
  | .buf _ => 0

/-- JS ToUint16 of a number (NaN from a non-number element becomes 0). -/
def elemToUint16 (e : JSElem) : Nat :=
  match e with
  | .num n => (n % 65536).toNat
  | .buf _ => 0

/-- JS ToInt16 bit pattern of a number. -/
def elemToInt16bits (e : JSElem) : Nat :=
  match e with
  | .num n => (n % 65536).toNat
  | .buf _ => 0

/-- Byte image of new Uint8Array(jsArray). -/
def uint8ArrayBytes (elems : List JSElem) : List Nat := elems.map elemToUint8

/-- Byte image of new Uint16Array(jsArray): each element stored as two
little-endian bytes. -/
def uint16ArrayBytes (elems : List JSElem) : List Nat :=
  (elems.map (fun e => [elemToUint16 e % 256, elemToUint16 e / 256])).flatten

/-- Byte image of new Int16Array(jsArray). -/
def int16ArrayBytes (elems : List JSElem) : List Nat :=
  (elems.map (fun e => [elemToInt16bits e % 256, elemToInt16bits e / 256])).flatten

/-! ### Reference-dataset geometry (concatenatePixelData preamble) -/

structure RefGeometry where
  bitsAllocated : Option Nat
  rows : Nat
  columns : Nat
  samplesPerPixel : Option Nat
deriving DecidableEq

/-- bitsAllocated with the || 16 default of the source. -/
def RefGeometry.effBits (g : RefGeometry) : Nat := jsOr g.bitsAllocated 16

/-- samplesPerPixel with the || 1 default of the source. -/
def RefGeometry.effSpp (g : RefGeometry) : Nat := jsOr g.samplesPerPixel 1

/-- bytesPerPixel = Math.ceil(bitsAllocated / 8). -/
def RefGeometry.bytesPerPixel (g : RefGeometry) : Nat := (g.effBits + 7) / 8

/-- bytesPerFrame = rows * columns * samplesPerPixel * bytesPerPixel. -/
def RefGeometry.bytesPerFrame (g : RefGeometry) : Nat :=
  g.rows * g.columns * g.effSpp * g.bytesPerPixel

/-! ### concatenatePixelData (3D) -/

/-- Frame bytes recognized by the 3D concatenation loop: an ArrayBuffer or
typed view contributes its raw bytes; a plain JS array is converted through
Uint8Array or Uint16Array depending on bitsAllocated; anything else is
unsupported (the loop warns and skips it). -/
def frameBytes3 (bits : Nat) (p : JSPixel) : Option (List Nat) :=
  match p with
  | .buffer d => some d
  | .jsArray a => some (if bits ≤ 8 then uint8ArrayBytes a else uint16ArrayBytes a)
  | .obj _ => none
  | .other => none

/-- Body of the for-loop of concatenatePixelData: copies
min(frameData.length, bytesPerFrame) bytes of each recognized frame at the
current offset and advances the offset by bytesPerFrame; an unsupported
frame is skipped without advancing the offset. -/
def concatLoop3 (bits bpf : Nat) : List JSPixel → List Nat → Nat → List Nat
  | [], buf, _ => buf
  | p :: rest, buf, offset =>
    match frameBytes3 bits p with
    | none => concatLoop3 bits bpf rest buf offset
    | some d => concatLoop3 bits bpf rest (writeAt buf offset (d.take bpf)) (offset + bpf)

/-- concatenatePixelData: allocates bytesPerFrame * length zero bytes and
runs the copy loop; throws only when no pixel data arrays were given. -/
def concatenatePixelData (pixelDataArrays : List JSPixel) (g : RefGeometry) :
    Except String (List Nat) :=
  if pixelDataArrays.length = 0 then .error "No pixel data found"
  else
    .ok (concatLoop3 g.effBits g.bytesPerFrame pixelDataArrays
      (List.replicate (g.bytesPerFrame * pixelDataArrays.length) 0) 0)

/-! ### concatenate4DPixelData -/

/-- Timepoint bytes recognized by the 4D loop: only a one-element JS array
whose single entry is an ArrayBuffer or typed view is accepted; every
other shape is skipped (with the offset still advanced). -/
def frameBytes4 (p : JSPixel) : Option (List Nat) :=
  match p with
  | .jsArray [.buf d] => some d
  | _ => none

/-- Body of the for-loop of concatenate4DPixelData: the offset advances by
bytesPerTimepoint for every entry, recognized or skipped. -/
def concatLoop4 (bpt : Nat) : List JSPixel → List Nat → Nat → List Nat
  | [], buf, _ => buf
  | p :: rest, buf, offset =>
    match frameBytes4 p with
    | none => concatLoop4 bpt rest buf (offset + bpt)
    | some d => concatLoop4 bpt rest (writeAt buf offset (d.take bpt)) (offset + bpt)

/-- concatenate4DPixelData. -/
def concatenate4DPixelData (pixelDataArrays : List JSPixel) (g : RefGeometry)
    (slicesPerTimepoint : Nat) : Except String (List Nat) :=
  if pixelDataArrays.length = 0 then .error "No pixel data found"
  else
    .ok (concatLoop4 (g.bytesPerFrame * slicesPerTimepoint) pixelDataArrays
      (List.replicate (g.bytesPerFrame * slicesPerTimepoint * pixelDataArrays.length) 0) 0)

end Egami

namespace Egami

/-! ### Datasets and createMultiframeFromDatasets -/

/-- Naturalized DICOM dataset fields the assembler reads.  Float-valued
geometry (PixelSpacing, SliceThickness) is carried as binary32 bit
patterns; a pattern of 0 is the float 0.0 and is falsy in JS. -/
structure Dataset where
  numberOfFrames : Option Nat
  numberOfTemporalPositions : Option Nat
  numberOfSlices : Option Nat
  rows : Nat
  columns : Nat
  bitsAllocated : Option Nat
  samplesPerPixel : Option Nat
  pixelSpacing : Option (Nat × Nat)
  sliceThickness : Option Nat
  pixelData : Option JSPixel
deriving DecidableEq

/-- Geometry fields of the reference (first) dataset, as read by the
concatenation routines. -/
def Dataset.geometry (d : Dataset) : RefGeometry :=
  { bitsAllocated := d.bitsAllocated
    rows := d.rows
    columns := d.columns
    samplesPerPixel := d.samplesPerPixel }

/-- Multiframe dataset handed to createNiftiFromMultiframe: the first
dataset spread together with the frame-count bookkeeping and the combined
pixel data. -/
structure Multiframe where
  numberOfFrames : Option Nat
  numberOfTemporalPositions : Option Nat
  numberOfSlices : Option Nat
  rows : Nat
  columns : Nat
  bitsAllocated : Option Nat
  samplesPerPixel : Option Nat
  pixelSpacing : Option (Nat × Nat)
  sliceThickness : Option Nat
  pixelData : JSPixel
deriving DecidableEq

/-- createMultiframeFromDatasets: branches on the FIRST dataset's
NumberOfFrames (|| 1).  When it exceeds 1 the series is treated as 4D (one
record per timepoint); otherwise every record is taken as a single slice of
a 3D stack.  No uniformity check on the other records' frame counts is
performed. -/
def createMultiframeFromDatasets (datasets : List Dataset) :
    Except String Multiframe :=
  match datasets with
  | [] => .error "No datasets provided"
  | firstDataset :: _ =>
    let framesPerFile := jsOr firstDataset.numberOfFrames 1
    let numFiles := datasets.length
    if framesPerFile > 1 then
      let totalTimepoints := numFiles
      let slicesPerTimepoint := framesPerFile
      let all4DPixelData := datasets.filterMap (fun d => d.pixelData)
      match concatenate4DPixelData all4DPixelData firstDataset.geometry
          slicesPerTimepoint with
      | .error e => .error e
      | .ok combined =>
        .ok { numberOfFrames := some (totalTimepoints * slicesPerTimepoint)
              numberOfTemporalPositions := some totalTimepoints
              numberOfSlices := some slicesPerTimepoint
              rows := firstDataset.rows
              columns := firstDataset.columns
              bitsAllocated := firstDataset.bitsAllocated
              samplesPerPixel := firstDataset.samplesPerPixel
              pixelSpacing := firstDataset.pixelSpacing
              sliceThickness := firstDataset.sliceThickness
              pixelData := .buffer combined }
    else
      let pixelDataArrays := datasets.filterMap (fun d => d.pixelData)
      match concatenatePixelData pixelDataArrays firstDataset.geometry with
      | .error e => .error e
      | .ok combined =>
        .ok { numberOfFrames := some datasets.length
              numberOfTemporalPositions := firstDataset.numberOfTemporalPositions
              numberOfSlices := firstDataset.numberOfSlices
              rows := firstDataset.rows
              columns := firstDataset.columns
              bitsAllocated := firstDataset.bitsAllocated
              samplesPerPixel := firstDataset.samplesPerPixel
              pixelSpacing := firstDataset.pixelSpacing
              sliceThickness := firstDataset.sliceThickness
              pixelData := .buffer combined }

/-! ### NIfTI header construction (createNiftiFromMultiframe) -/

/-- nifti.NIFTI1.TYPE_INT16: the NIfTI datatype code of 16-bit signed
integer data. -/
def TYPE_INT16 : Int := 4

/-- Binary32 pattern of 1.0. -/
def f32one : Nat := natToF32bits 1

/-- JS pattern || 1 default for a float header field: the 0.0 pattern is
falsy. -/
def patOr1 (p : Nat) : Nat := if p = 0 then f32one else p

/-- Optional float pattern with || 1 default. -/
def optPatOr1 (o : Option Nat) : Nat :=
  match o with
  | none => f32one
  | some p => patOr1 p

/-- In-memory NIfTI header object, with float fields as binary32 patterns
and text fields as byte lists, exactly as assembled by
createNiftiFromMultiframe. -/
structure NiftiHeader where
  dim : List Int
  pixdim : List Nat
  datatype : Int
  bitpix : Int
  cal_max : Nat
  cal_min : Nat
  scl_slope : Nat
  scl_inter : Nat
  regular : Nat
  dim_info : Nat
  intent_p1 : Nat
  intent_p2 : Nat
  intent_p3 : Nat
  intent_code : Int
  slice_start : Int
  slice_end : Int
  slice_code : Nat
  xyzt_units : Nat
  magic : List Nat
  vox_offset : Nat
  descrip : List Nat
  qform_code : Int
  sform_code : Int
  quatern_b : Nat
  quatern_c : Nat
  quatern_d : Nat
  qoffset_x : Nat
  qoffset_y : Nat
  qoffset_z : Nat
  srow_x : List Nat
  srow_y : List Nat
  srow_z : List Nat
deriving DecidableEq

/-- ASCII bytes of the fixed description string. -/
def descripBytes : List Nat :=
  ("Created by egami dcm2nii".data).map Char.toNat

/-- Header object assembled by createNiftiFromMultiframe from the
multiframe dataset fields. -/
def headerOf (m : Multiframe) : NiftiHeader :=
  let numberOfFrames := jsOr m.numberOfFrames 1
  let numberOfSlices := jsOr m.numberOfSlices numberOfFrames
  let numberOfTimepoints := jsOr m.numberOfTemporalPositions 1
  let is4D := numberOfTimepoints > 1
  let ps := m.pixelSpacing.getD (f32one, f32one)
  let ps0 := patOr1 ps.1
  let ps1 := patOr1 ps.2
  let thick := optPatOr1 m.sliceThickness
  { dim :=
      if is4D then
        [4, m.columns, m.rows, numberOfSlices, numberOfTimepoints, 1, 1, 1]
      else
        [3, m.columns, m.rows, numberOfFrames, 1, 1, 1, 1]
    pixdim := [f32one, ps0, ps1, thick, f32one, f32one, f32one, f32one]
    datatype := TYPE_INT16
    bitpix := 16
    cal_max := 0
    cal_min := 0
    scl_slope := f32one
    scl_inter := 0
    regular := 114
    dim_info := 0
    intent_p1 := 0
    intent_p2 := 0
    intent_p3 := 0
    intent_code := 0
    slice_start := 0
    slice_end := ((if is4D then numberOfSlices else numberOfFrames) : Int) - 1
    slice_code := 0
    xyzt_units := 2
    magic := [110, 43, 49, 0]
    vox_offset := natToF32bits 352
    descrip := descripBytes
    qform_code := 1
    sform_code := 1
    quatern_b := 0
    quatern_c := 0
    quatern_d := 0
    qoffset_x := 0
    qoffset_y := 0
    qoffset_z := 0
    srow_x := [ps0, 0, 0, 0]
    srow_y := [0, ps1, 0, 0]
    srow_z := [0, 0, thick, 0] }

/-- Serialization of the eight-element dim field: eight little-endian
int16 writes of header.dim[i] || 0. -/
def writeDimField (dim : List Int) : List Nat :=
  bytesLE16i (dim.getD 0 0) ++ bytesLE16i (dim.getD 1 0) ++
  bytesLE16i (dim.getD 2 0) ++ bytesLE16i (dim.getD 3 0) ++
  bytesLE16i (dim.getD 4 0) ++ bytesLE16i (dim.getD 5 0) ++
  bytesLE16i (dim.getD 6 0) ++ bytesLE16i (dim.getD 7 0)

/-- Serialization of the eight-element pixdim field: eight little-endian
float writes of header.pixdim[i] || 0. -/
def writePixdimField (pixdim : List Nat) : List Nat :=
  bytesF32 (pixdim.getD 0 0) ++ bytesF32 (pixdim.getD 1 0) ++
  bytesF32 (pixdim.getD 2 0) ++ bytesF32 (pixdim.getD 3 0) ++
  bytesF32 (pixdim.getD 4 0) ++ bytesF32 (pixdim.getD 5 0) ++
  bytesF32 (pixdim.getD 6 0) ++ bytesF32 (pixdim.getD 7 0)

/-- Serialization of one four-element srow vector. -/
def writeSrow (srow : List Nat) : List Nat :=
  bytesF32 (srow.getD 0 0) ++ bytesF32 (srow.getD 1 0) ++
  bytesF32 (srow.getD 2 0) ++ bytesF32 (srow.getD 3 0)

/-- Text field written by buffer.write into a zero-filled region of the
given width: the bytes are laid down from the start, the rest stays 0. -/
def writeText (s : List Nat) (width : Nat) : List Nat :=
  s.take width ++ List.replicate (width - (s.take width).length) 0

/-- writeNiftiHeader: the 348-byte fixed header, serialized field by field
in the order of the source (offsets in comments). -/
def writeNiftiHeader (h : NiftiHeader) : List Nat :=
  bytesLE32n 348 ++                       -- 0   sizeof_hdr
  List.replicate 10 0 ++                  -- 4   data_type (unused)
  List.replicate 18 0 ++                  -- 14  db_name (unused)
  bytesLE32n 16384 ++                     -- 32  extents
  bytesLE16i 0 ++                         -- 36  session_error
  [h.regular % 256] ++                    -- 38  regular
  [h.dim_info % 256] ++                   -- 39  dim_info
  writeDimField h.dim ++                  -- 40  dim[8]
  bytesF32 h.intent_p1 ++                 -- 56  intent_p1
  bytesF32 h.intent_p2 ++                 -- 60  intent_p2
  bytesF32 h.intent_p3 ++                 -- 64  intent_p3
  bytesLE16i h.intent_code ++             -- 68  intent_code
  bytesLE16i h.datatype ++                -- 70  datatype
  bytesLE16i h.bitpix ++                  -- 72  bitpix
  bytesLE16i h.slice_start ++             -- 74  slice_start
  writePixdimField h.pixdim ++            -- 76  pixdim[8]
  bytesF32 h.vox_offset ++                -- 108 vox_offset
  bytesF32 h.scl_slope ++                 -- 112 scl_slope
  bytesF32 h.scl_inter ++                 -- 116 scl_inter
  bytesLE16i h.slice_end ++               -- 120 slice_end
  [h.slice_code % 256] ++                 -- 122 slice_code
  [h.xyzt_units % 256] ++                 -- 123 xyzt_units
  bytesF32 h.cal_max ++                   -- 124 cal_max
  bytesF32 h.cal_min ++                   -- 128 cal_min
  bytesF32 0 ++                           -- 132 slice_duration
  bytesF32 0 ++                           -- 136 toffset
  bytesLE32n 0 ++                         -- 140 glmax
  bytesLE32n 0 ++                         -- 144 glmin
  writeText (h.descrip.take 79) 80 ++     -- 148 descrip (substring 0 79)
  List.replicate 24 0 ++                  -- 228 aux_file
  bytesLE16i h.qform_code ++              -- 252 qform_code
  bytesLE16i h.sform_code ++              -- 254 sform_code
  bytesF32 h.quatern_b ++                 -- 256 quatern_b
  bytesF32 h.quatern_c ++                 -- 260 quatern_c
  bytesF32 h.quatern_d ++                 -- 264 quatern_d
  bytesF32 h.qoffset_x ++                 -- 268 qoffset_x
  bytesF32 h.qoffset_y ++                 -- 272 qoffset_y
  bytesF32 h.qoffset_z ++                 -- 276 qoffset_z
  writeSrow h.srow_x ++                   -- 280 srow_x
  writeSrow h.srow_y ++                   -- 296 srow_y
  writeSrow h.srow_z ++                   -- 312 srow_z
  List.replicate 16 0 ++                  -- 328 intent_name
  writeText h.magic 4                     -- 344 magic

/-- Extraction of the flat image bytes from multiframe.PixelData,
mirroring the if-chain of createNiftiFromMultiframe. -/
def imageDataOf (p : JSPixel) : Except String (List Nat) :=
  match p with
  | .buffer d => .ok d
  | .jsArray elems =>
    match elems.head? with
    | some (.buf d) => .ok d
    | _ => .ok (int16ArrayBytes elems)
  | .obj (some (.buf d)) => .ok d
  | .obj _ => .error "Unsupported pixel data format in parsed structure"
  | .other => .error "Unsupported pixel data format"

/-- createNiftiFromMultiframe: a 352-byte header region (348 header bytes
written into a zero-filled allocation, leaving bytes 348-351 zero)
followed by the image bytes. -/
def createNiftiFromMultiframe (m : Multiframe) : Except String (List Nat) :=
  match imageDataOf m.pixelData with
  | .error e => .error e
  | .ok img =>
    .ok (writeNiftiHeader (headerOf m) ++ List.replicate 4 0 ++ img)

end Egami

namespace Egami

/-! ### nii2png: slice-plane extraction (src/unnamed/part_003) -/

/-- JS typedArray[index] || 0 — an out-of-range read yields undefined,
which || maps to 0; an in-range 0 stays 0. -/
def readSample (a : List Int) (i : Nat) : Int := a.getD i 0

/-- Scalar-plane extraction: the switch on dimIndex of nii2png.  Each case
iterates the plane in row-major order and reads the sample at
(x + y*nx + z*nx*ny) * pixelStride with the sliced coordinate fixed,
returning (width, height, sliceData); an invalid dimIndex throws. -/
def extractScalar (a : List Int) (nx ny nz stride slice dimIndex : Nat) :
    Except String (Nat × Nat × List Int) :=
  match dimIndex with
  | 1 => .ok (ny, nz,
      ((List.range nz).map (fun k =>
        (List.range ny).map (fun j =>
          readSample a ((slice + j * nx + k * nx * ny) * stride)))).flatten)
  | 2 => .ok (nx, nz,
      ((List.range nz).map (fun k =>
        (List.range nx).map (fun i =>
          readSample a ((i + slice * nx + k * nx * ny) * stride)))).flatten)
  | 3 => .ok (nx, ny,
      ((List.range ny).map (fun j =>
        (List.range nx).map (fun i =>
          readSample a ((i + j * nx + slice * nx * ny) * stride)))).flatten)
  | _ => .error "Invalid dimension. Use 1 (x), 2 (y), or 3 (z)"

/-- RGB-plane extraction: same traversal, pushing the three channel
samples at index, index+1, index+2 for each plane position. -/
def extractRGB (a : List Int) (nx ny nz stride slice dimIndex : Nat) :
    Except String (Nat × Nat × List Int) :=
  match dimIndex with
  | 1 => .ok (ny, nz,
      ((List.range nz).map (fun k =>
        ((List.range ny).map (fun j =>
          [readSample a ((slice + j * nx + k * nx * ny) * stride),
           readSample a ((slice + j * nx + k * nx * ny) * stride + 1),
           readSample a ((slice + j * nx + k * nx * ny) * stride + 2)])).flatten)).flatten)
  | 2 => .ok (nx, nz,
      ((List.range nz).map (fun k =>
        ((List.range nx).map (fun i =>
          [readSample a ((i + slice * nx + k * nx * ny) * stride),
           readSample a ((i + slice * nx + k * nx * ny) * stride + 1),
           readSample a ((i + slice * nx + k * nx * ny) * stride + 2)])).flatten)).flatten)
  | 3 => .ok (nx, ny,
      ((List.range ny).map (fun j =>
        ((List.range nx).map (fun i =>
          [readSample a ((i + j * nx + slice * nx * ny) * stride),
           readSample a ((i + j * nx + slice * nx * ny) * stride + 1),
           readSample a ((i + j * nx + slice * nx * ny) * stride + 2)])).flatten)).flatten)
  | _ => .error "Invalid dimension. Use 1 (x), 2 (y), or 3 (z)"

/-! ### nii2png: PNG raster fill with vertical flip

The PNG data buffer is a mutable byte array; it is modelled as a function
from byte index to value, initially all zero (pngjs allocates zero-filled),
updated pointwise by each assignment. -/

/-- Pointwise buffer assignment png.data[i] = v. -/
def updAt (f : Nat → Nat) (i v : Nat) : Nat → Nat :=
  fun j => if j = i then v else f j

/-- Body of the inner grayscale loop for one (y, x): reads
normalizedData[y*width + x] (|| 0) and writes the RGBA quadruple at
dstIdx = ((height - 1 - y) * width + x) << 2. -/
def fillGrayPixel (w h : Nat) (vals : List Nat) (y x : Nat)
    (png : Nat → Nat) : Nat → Nat :=
  let value := vals.getD (y * w + x) 0
  let dstIdx := ((h - 1 - y) * w + x) * 4
  updAt (updAt (updAt (updAt png dstIdx value) (dstIdx + 1) value)
    (dstIdx + 2) value) (dstIdx + 3) 255

/-- Inner loop over x for one source row y. -/
def fillGrayRow (w h : Nat) (vals : List Nat) (y : Nat)
    (png : Nat → Nat) : Nat → Nat :=
  (List.range w).foldl (fun p x => fillGrayPixel w h vals y x p) png

/-- Grayscale PNG fill: both loops, starting from a zero-filled buffer. -/
def fillGray (w h : Nat) (vals : List Nat) : Nat → Nat :=
  (List.range h).foldl (fun p y => fillGrayRow w h vals y p) (fun _ => 0)

/-! ### nii2png: scalar normalization (normalizeToUint8) -/

/-- JS Math.round: round half toward positive infinity. -/
def jsRound (q : ℚ) : Int := ⌊q + 1 / 2⌋

/-- normalizeToUint8: range = max - min || 1; each sample is mapped to
Math.round((v - min) / range * 255) and stored into a Uint8Array
(storage truncates to the low 8 bits, which is the identity whenever the
rounded value lies in [0, 255]). -/
def normalizeToUint8 (data : List ℚ) (vmin vmax : ℚ) : List Nat :=
  let range := if vmax - vmin = 0 then 1 else vmax - vmin
  data.map (fun v => ((jsRound ((v - vmin) / range * 255)) % 256).toNat)

/-! ### dcm2png: calculateOptimalWindowLevel -/

/-- Math.min over a nonempty spread argument list. -/
def jsMin (l : List Nat) : Nat :=
  match l with
  | [] => 0
  | v :: rest => rest.foldl Nat.min v

/-- Math.max over a nonempty spread argument list. -/
def jsMax (l : List Nat) : Nat :=
  match l with
  | [] => 0
  | v :: rest => rest.foldl Nat.max v

/-- calculateOptimalWindowLevel over the rendered 8-bit pixel values.
Zero pixels are skipped, survivors are scaled by 16; with strictly more
than 1000 survivors the ascending sort and the 2nd/98th percentile
formulas apply, with at least one survivor the min/max fallback applies,
otherwise the result is null.  The result pair is (windowWidth,
windowCenter), matching the WindowLevel constructor argument order. -/
def calculateOptimalWindowLevel (pixels : List Nat) : Option (ℚ × ℚ) :=
  let pixelValues : List Nat :=
    (pixels.filter (fun v => 0 < v)).map (fun v => v * 16)
  if 1000 < pixelValues.length then
    let sorted := pixelValues.insertionSort (· ≤ ·)
    let p2Index := pixelValues.length * 2 / 100
    let p98Index := pixelValues.length * 98 / 100
    let p2Val := sorted.getD p2Index 0
    let p98Val := sorted.getD p98Index 0
    some (((p98Val : ℚ) - (p2Val : ℚ)) * (6 / 5),
      ((p98Val : ℚ) + (p2Val : ℚ)) / 2)
  else if 0 < pixelValues.length then
    let minVal := jsMin pixelValues
    let maxVal := jsMax pixelValues
    some (((maxVal : ℚ) - (minVal : ℚ)) * (3 / 2),
      ((maxVal : ℚ) + (minVal : ℚ)) / 2)
  else none

/-- Claimed contrast rule, following the words of the specification: the
percentile path applies as soon as the population has AT LEAST 1000
samples (the source requires strictly more than 1000). -/
def computeWindowClaimed (pixels : List Nat) : Option (ℚ × ℚ) :=
  let pixelValues : List Nat :=
    (pixels.filter (fun v => 0 < v)).map (fun v => v * 16)
  if 1000 ≤ pixelValues.length then
    let sorted := pixelValues.insertionSort (· ≤ ·)
    let p2Index := pixelValues.length * 2 / 100
    let p98Index := pixelValues.length * 98 / 100
    let p2Val := sorted.getD p2Index 0
    let p98Val := sorted.getD p98Index 0
    some (((p98Val : ℚ) - (p2Val : ℚ)) * (6 / 5),
      ((p98Val : ℚ) + (p2Val : ℚ)) / 2)
  else if 0 < pixelValues.length then
    let minVal := jsMin pixelValues
    let maxVal := jsMax pixelValues
    some (((maxVal : ℚ) - (minVal : ℚ)) * (3 / 2),
      ((maxVal : ℚ) + (minVal : ℚ)) / 2)
  else none

/-! ### dcm2nii: series file sorting (groupDicomFilesBySeries) -/

structure ParsedMeta where
  instanceNumber : Option Int
deriving DecidableEq

/-- One file of a series partition: its path and the outcome of reading
and parsing it inside the sort comparator (none models a thrown
exception). -/
structure DicomFile where
  name : String
  parsed : Option ParsedMeta
deriving DecidableEq

/-- JS x || 0 on an optional numeric tag. -/
def jsOrInt (o : Option Int) : Int :=
  match o with
  | none => 0
  | some 0 => 0
  | some k => k

/-- Lexicographic byte comparison of character lists, modelling a
non-positive String.prototype.localeCompare result for ASCII names. -/
def charListLe : List Char → List Char → Bool
  | [], _ => true
  | _ :: _, [] => false
  | c :: cs, d :: ds =>
    if c.toNat < d.toNat then true
    else if d.toNat < c.toNat then false
    else charListLe cs ds

/-- basename: the characters after the last path separator. -/
def basenameChars (cs : List Char) : List Char :=
  (cs.reverse.takeWhile (fun c => c ≠ ('/' : Char))).reverse

/-- Comparator of the per-series sort, as a relation (comparator result
at most 0): when both files read and parse, compare InstanceNumber || 0
numerically; when either throws, compare basenames lexicographically
(localeCompare modelled as byte order). -/
def fileLE (a b : DicomFile) : Prop :=
  match a.parsed, b.parsed with
  | some ma, some mb => jsOrInt ma.instanceNumber ≤ jsOrInt mb.instanceNumber
  | _, _ => charListLe (basenameChars a.name.data)
      (basenameChars b.name.data) = true

instance : DecidableRel fileLE := by
  intro a b
  unfold fileLE
  rcases a.parsed with _ | ma <;> rcases b.parsed with _ | mb <;>
    simp only [] <;> infer_instance

/-- series.files.sort(comparator): a stable sort by the comparator
relation. -/
def sortSeriesFiles (files : List DicomFile) : List DicomFile :=
  files.insertionSort fileLE

/-- Numeric key the comparator uses when both sides parse. -/
def instKey (f : DicomFile) : Int :=
  match f.parsed with
  | some m => jsOrInt m.instanceNumber
  | none => 0

/-- Claimed ordering rule, following the words of the specification:
ascending by instanceIndex when EVERY member of the partition has one,
otherwise the whole partition ordered by file name. -/
def claimedSortSeriesFiles (files : List DicomFile) : List DicomFile :=
  if files.all (fun f =>
      match f.parsed with
      | some m => m.instanceNumber.isSome
      | none => false) then
    files.insertionSort (fun a b => instKey a ≤ instKey b)
  else
    files.insertionSort (fun a b =>
      charListLe (basenameChars a.name.data) (basenameChars b.name.data) = true)

end Egami


namespace Egami

/-! ### Lemmas about writeAt and the concatenation loops -/

/-- Pad or truncate a byte sequence to exactly the frame size: the bytes
a frame slot receives from a record. -/
def padTrunc (bpf : Nat) (d : List Nat) : List Nat :=
  d.take bpf ++ List.replicate (bpf - (d.take bpf).length) 0

theorem padTrunc_length (bpf : Nat) (d : List Nat) :
    (padTrunc bpf d).length = bpf := by
  simp [padTrunc]

theorem writeAt_append (a b d : List Nat) (off : Nat) :
    writeAt (a ++ b) (a.length + off) d = a ++ writeAt b off d := by
  unfold writeAt
  rw [Nat.add_assoc, List.take_append, List.drop_append]
  simp [List.append_assoc]

theorem writeAt_zero_replicate (m : Nat) (d : List Nat) :
    writeAt (List.replicate m 0) 0 d = d ++ List.replicate (m - d.length) 0 := by
  unfold writeAt
  simp [List.drop_replicate]

theorem concatLoop3_shift (bits bpf : Nat) (ps : List JSPixel)
    (a : List Nat) :
    ∀ (b : List Nat) (off : Nat),
      concatLoop3 bits bpf ps (a ++ b) (a.length + off) =
        a ++ concatLoop3 bits bpf ps b off := by
  induction ps with
  | nil => intro b off; rfl
  | cons p rest ih =>
    intro b off
    unfold concatLoop3
    cases hfb : frameBytes3 bits p with
    | none => exact ih b off
    | some d =>
      dsimp only
      rw [writeAt_append, Nat.add_assoc]
      exact ih _ (off + bpf)

theorem concatLoop4_shift (bpt : Nat) (ps : List JSPixel)
    (a : List Nat) :
    ∀ (b : List Nat) (off : Nat),
      concatLoop4 bpt ps (a ++ b) (a.length + off) =
        a ++ concatLoop4 bpt ps b off := by
  induction ps with
  | nil => intro b off; rfl
  | cons p rest ih =>
    intro b off
    unfold concatLoop4
    cases hfb : frameBytes4 p with
    | none =>
      dsimp only
      rw [Nat.add_assoc]
      exact ih b (off + bpt)
    | some d =>
      dsimp only
      rw [writeAt_append, Nat.add_assoc]
      exact ih _ (off + bpt)

/-- Characterization of the 3D copy loop on a fresh zero buffer: the
recognized frames are laid out contiguously from the start, each padded
or truncated to the frame size, and the rest of the buffer stays zero. -/
theorem concatLoop3_char (bits bpf : Nat) :
    ∀ (ps : List JSPixel) (m : Nat),
      bpf * (ps.filterMap (frameBytes3 bits)).length ≤ m →
      concatLoop3 bits bpf ps (List.replicate m 0) 0 =
        ((ps.filterMap (frameBytes3 bits)).map (padTrunc bpf)).flatten ++
          List.replicate (m - bpf * (ps.filterMap (frameBytes3 bits)).length) 0 := by
  intro ps
  induction ps with
  | nil => intro m hm; simp [concatLoop3]
  | cons p rest ih =>
    intro m hm
    unfold concatLoop3
    cases hfb : frameBytes3 bits p with
    | none =>
      rw [List.filterMap_cons_none hfb] at hm ⊢
      exact ih m hm
    | some d =>
      dsimp only
      rw [List.filterMap_cons_some hfb] at hm ⊢
      rw [List.length_cons, Nat.mul_succ] at hm
      have hbpf : bpf ≤ m := by omega
      have htkd : (d.take bpf).length ≤ bpf := by
        simp
      rw [writeAt_zero_replicate m (d.take bpf)]
      have hsplit : List.replicate (m - (d.take bpf).length) (0 : Nat) =
          List.replicate (bpf - (d.take bpf).length) 0 ++
            List.replicate (m - bpf) 0 := by
        rw [← List.replicate_add]
        congr 1
        omega
      rw [hsplit, ← List.append_assoc]
      have hpt : d.take bpf ++ List.replicate (bpf - (d.take bpf).length) 0 =
          padTrunc bpf d := rfl
      rw [hpt]
      have hshift := concatLoop3_shift bits bpf rest (padTrunc bpf d)
        (List.replicate (m - bpf) 0) 0
      rw [padTrunc_length, Nat.add_zero] at hshift
      rw [Nat.zero_add, hshift]
      have hrest : bpf * (rest.filterMap (frameBytes3 bits)).length ≤ m - bpf := by
        omega
      rw [ih (m - bpf) hrest]
      have hcount : m - bpf - bpf * (List.filterMap (frameBytes3 bits) rest).length
          = m - bpf * (d :: List.filterMap (frameBytes3 bits) rest).length := by
        rw [List.length_cons, Nat.mul_succ]; omega
      simp only [List.map_cons, List.flatten_cons, List.append_assoc, hcount]

/-- Characterization of the 4D copy loop on a fresh zero buffer: every
entry occupies its own timepoint slot in order; a skipped entry leaves its
slot zero-filled in place. -/
theorem concatLoop4_char (bpt : Nat) :
    ∀ (ps : List JSPixel) (m : Nat),
      bpt * ps.length ≤ m →
      concatLoop4 bpt ps (List.replicate m 0) 0 =
        (ps.map (fun p =>
          match frameBytes4 p with
          | some d => padTrunc bpt d
          | none => List.replicate bpt 0)).flatten ++
          List.replicate (m - bpt * ps.length) 0 := by
  intro ps
  induction ps with
  | nil => intro m hm; simp [concatLoop4]
  | cons p rest ih =>
    intro m hm
    rw [List.length_cons, Nat.mul_succ] at hm
    have hbpt : bpt ≤ m := by omega
    have hrest : bpt * rest.length ≤ m - bpt := by omega
    unfold concatLoop4
    cases hfb : frameBytes4 p with
    | none =>
      dsimp only
      have hsplit : List.replicate m (0 : Nat) =
          List.replicate bpt 0 ++ List.replicate (m - bpt) 0 := by
        rw [← List.replicate_add]
        congr 1
        omega
      rw [hsplit]
      have hshift := concatLoop4_shift bpt rest (List.replicate bpt 0)
        (List.replicate (m - bpt) 0) 0
      rw [List.length_replicate, Nat.add_zero] at hshift
      rw [Nat.zero_add, hshift]
      rw [ih (m - bpt) hrest]
      have hcount : m - bpt - bpt * rest.length = m - bpt * (p :: rest).length := by
        rw [List.length_cons, Nat.mul_succ]; omega
      simp only [List.map_cons, List.flatten_cons, hfb, List.append_assoc, hcount]
    | some d =>
      dsimp only
      have htkd : (d.take bpt).length ≤ bpt := by
        simp
      rw [writeAt_zero_replicate m (d.take bpt)]
      have hsplit : List.replicate (m - (d.take bpt).length) (0 : Nat) =
          List.replicate (bpt - (d.take bpt).length) 0 ++
            List.replicate (m - bpt) 0 := by
        rw [← List.replicate_add]
        congr 1
        omega
      rw [hsplit, ← List.append_assoc]
      have hpt : d.take bpt ++ List.replicate (bpt - (d.take bpt).length) 0 =
          padTrunc bpt d := rfl
      rw [hpt]
      have hshift := concatLoop4_shift bpt rest (padTrunc bpt d)
        (List.replicate (m - bpt) 0) 0
      rw [padTrunc_length, Nat.add_zero] at hshift
      rw [Nat.zero_add, hshift]
      rw [ih (m - bpt) hrest]
      have hcount : m - bpt - bpt * rest.length = m - bpt * (p :: rest).length := by
        rw [List.length_cons, Nat.mul_succ]; omega
      simp only [List.map_cons, List.flatten_cons, hfb, List.append_assoc, hcount]

end Egami

namespace Egami

/-! ### Generic list helpers for the assembly proofs -/

theorem filterMap_eq_map_of_isSome {α β : Type} (f : α → Option β) (dflt : β) :
    ∀ (l : List α), (∀ x ∈ l, (f x).isSome) →
      l.filterMap f = l.map (fun x => (f x).getD dflt) := by
  intro l
  induction l with
  | nil => intro _; rfl
  | cons x rest ih =>
    intro h
    have hx := h x (by simp)
    cases hfx : f x with
    | none => rw [hfx] at hx; simp at hx
    | some b =>
      rw [List.filterMap_cons_some hfx, List.map_cons, hfx]
      simp only [Option.getD_some]
      rw [ih (fun y hy => h y (by simp [hy]))]

theorem filterMap_length_split {α β : Type} (f : α → Option β) :
    ∀ l : List α,
      (l.filterMap f).length +
        (l.filter (fun x => (f x).isNone)).length = l.length := by
  intro l
  induction l with
  | nil => rfl
  | cons x rest ih =>
    cases hfx : f x with
    | none =>
      rw [List.filterMap_cons_none hfx]
      simp [List.filter_cons, hfx]
      omega
    | some b =>
      rw [List.filterMap_cons_some hfx]
      simp [List.filter_cons, hfx]
      omega

theorem flatten_length_const {α : Type} (bpf : Nat) :
    ∀ (L : List (List α)), (∀ c ∈ L, c.length = bpf) →
      L.flatten.length = bpf * L.length := by
  intro L
  induction L with
  | nil => intro _; simp
  | cons c rest ih =>
    intro h
    rw [List.flatten_cons, List.length_append, h c (by simp),
      ih (fun y hy => h y (by simp [hy]))]
    rw [List.length_cons, Nat.mul_succ]
    omega

/-- Extracting chunk j from a flat concatenation of equal-size chunks
(with possible extra bytes appended after the chunks). -/
theorem flatten_chunk (bpf : Nat) :
    ∀ (L : List (List Nat)) (tail : List Nat) (j : Nat), j < L.length →
      (∀ c ∈ L, c.length = bpf) →
      ((L.flatten ++ tail).drop (j * bpf)).take bpf = L.getD j [] := by
  intro L
  induction L with
  | nil => intro tail j hj; simp at hj
  | cons c rest ih =>
    intro tail j hj hlen
    have hc : c.length = bpf := hlen c (by simp)
    cases j with
    | zero =>
      simp only [Nat.zero_mul, List.drop_zero, List.flatten_cons,
        List.getD_cons_zero, List.append_assoc]
      rw [List.take_append_of_le_length (by omega), List.take_of_length_le (by omega)]
    | succ j =>
      rw [List.getD_cons_succ]
      have harr : ((c :: rest).flatten ++ tail) =
          c ++ (rest.flatten ++ tail) := by
        simp [List.append_assoc]
      rw [harr]
      have hdrop : (c ++ (rest.flatten ++ tail)).drop ((j + 1) * bpf) =
          (rest.flatten ++ tail).drop (j * bpf) := by
        have : (j + 1) * bpf = c.length + j * bpf := by rw [hc]; ring
        rw [this, List.drop_append]
      rw [hdrop]
      exact ih tail j (by simpa using hj) (fun y hy => hlen y (by simp [hy]))

/-! ### Length of the serialized header -/

theorem writeNiftiHeader_length (h : NiftiHeader) :
    (writeNiftiHeader h).length = 348 := by
  simp only [writeNiftiHeader, writeDimField, writePixdimField, writeSrow,
    writeText, bytesLE16i, bytesLE32n, bytesF32, List.length_append,
    List.length_cons, List.length_nil, List.length_replicate, List.length_take]
  omega

/-! ### A default dataset value for positional indexing -/

def defaultDataset : Dataset :=
  { numberOfFrames := none
    numberOfTemporalPositions := none
    numberOfSlices := none
    rows := 0
    columns := 0
    bitsAllocated := none
    samplesPerPixel := none
    pixelSpacing := none
    sliceThickness := none
    pixelData := none }

end Egami

namespace Egami

/-! ### Concrete datasets used by counterexamples and witnesses -/

def dsSingleFrame : Dataset :=
  { defaultDataset with
      numberOfFrames := some 1
      rows := 2
      columns := 2
      bitsAllocated := some 16
      samplesPerPixel := some 1
      pixelData := some (.buffer [1, 0, 2, 0, 3, 0, 4, 0]) }

def dsMultiFrame : Dataset :=
  { dsSingleFrame with
      numberOfFrames := some 5
      pixelData := some (.buffer [9, 0, 9, 0, 9, 0, 9, 0]) }

/-- C7 counterexample: a series whose two records carry frame counts 1 and
5 — mixed frame counts — is not rejected: createMultiframeFromDatasets
returns a multiframe volume instead of an assembly error. -/
theorem mixed_frame_counts_not_rejected :
    jsOr dsSingleFrame.numberOfFrames 1 ≠ jsOr dsMultiFrame.numberOfFrames 1 ∧
    ∃ mf, createMultiframeFromDatasets [dsSingleFrame, dsMultiFrame] = .ok mf := by
  exact ⟨by decide, ⟨_, rfl⟩⟩

/-- C7 amended: the assembler performs no frame-count uniformity check.
It branches solely on the FIRST record's NumberOfFrames || 1; with a
single-frame first record and any pixel data present it always produces a
3D pseudo-multiframe with NumberOfFrames = record count, whatever frame
counts the remaining records carry. -/
theorem createMultiframe_no_uniformity_check (d : Dataset) (rest : List Dataset)
    (h1 : jsOr d.numberOfFrames 1 = 1)
    (hp : ((d :: rest).filterMap (fun x => x.pixelData)).length ≠ 0) :
    ∃ mf, createMultiframeFromDatasets (d :: rest) = .ok mf ∧
      mf.numberOfFrames = some (d :: rest).length := by
  unfold createMultiframeFromDatasets
  simp only [h1]
  rw [if_neg (by omega)]
  unfold concatenatePixelData
  rw [if_neg hp]
  exact ⟨_, rfl, rfl⟩

/-- Witness for the amended C7 theorem, at the mixed-frame-count series. -/
theorem createMultiframe_no_uniformity_check_witness :
    ∃ mf, createMultiframeFromDatasets [dsSingleFrame, dsMultiFrame] = .ok mf ∧
      mf.numberOfFrames = some 2 := by
  exact createMultiframe_no_uniformity_check dsSingleFrame [dsMultiFrame]
    (by decide) (by decide)

/-! ### Frame-slot placement lemmas -/

/-- Number of skipped (unrecognized) records among the first j records. -/
def skippedBefore (bits : Nat) (ps : List JSPixel) (j : Nat) : Nat :=
  ((ps.take j).filter (fun p => (frameBytes3 bits p).isNone)).length

theorem concat3_slot (bits bpf : Nat) (ps : List JSPixel) (tail : List Nat)
    (j : Nat) (d : List Nat) (hj : j < ps.length)
    (hd : frameBytes3 bits (ps.getD j .other) = some d) :
    ((((ps.filterMap (frameBytes3 bits)).map (padTrunc bpf)).flatten ++
        tail).drop ((j - skippedBefore bits ps j) * bpf)).take bpf =
      padTrunc bpf d := by
  have hdecomp : ps = ps.take j ++ ps.getD j .other :: ps.drop (j + 1) := by
    rw [List.getD_eq_getElem _ _ hj]
    conv_lhs => rw [← List.take_append_drop j ps]
    rw [List.drop_eq_getElem_cons hj]
  have htakelen : (ps.take j).length = j := by
    rw [List.length_take]
    omega
  have hsplit := filterMap_length_split (frameBytes3 bits) (ps.take j)
  have hskip : ((ps.take j).filterMap (frameBytes3 bits)).length =
      j - skippedBefore bits ps j := by
    unfold skippedBefore
    omega
  set A := (ps.take j).filterMap (frameBytes3 bits) with hA
  have hfm : ps.filterMap (frameBytes3 bits) =
      A ++ d :: (ps.drop (j + 1)).filterMap (frameBytes3 bits) := by
    conv_lhs => rw [hdecomp]
    rw [List.filterMap_append, List.filterMap_cons_some hd]
  rw [hfm, List.map_append, List.map_cons]
  have hidx : j - skippedBefore bits ps j = (A.map (padTrunc bpf)).length := by
    rw [List.length_map, ← hskip]
  rw [hidx]
  have hchunks : ∀ c ∈ (A.map (padTrunc bpf)) ++
      padTrunc bpf d :: ((ps.drop (j + 1)).filterMap (frameBytes3 bits)).map
        (padTrunc bpf), c.length = bpf := by
    intro c hc
    rcases List.mem_append.mp hc with hc | hc
    · rcases List.mem_map.mp hc with ⟨x, _, rfl⟩
      exact padTrunc_length bpf x
    · rcases List.mem_cons.mp hc with rfl | hc
      · exact padTrunc_length bpf d
      · rcases List.mem_map.mp hc with ⟨x, _, rfl⟩
        exact padTrunc_length bpf x
  rw [flatten_chunk bpf _ tail _ (by simp) hchunks]
  rw [List.getD_append_right _ _ _ _ (le_refl _)]
  simp

theorem concat4_slot (bpt : Nat) (ps : List JSPixel) (tail : List Nat)
    (j : Nat) (hj : j < ps.length) :
    (((ps.map (fun p =>
        match frameBytes4 p with
        | some d => padTrunc bpt d
        | none => List.replicate bpt 0)).flatten ++ tail).drop
          (j * bpt)).take bpt =
      (match frameBytes4 (ps.getD j .other) with
       | some d => padTrunc bpt d
       | none => List.replicate bpt 0) := by
  have hchunks : ∀ c ∈ ps.map (fun p =>
      match frameBytes4 p with
      | some d => padTrunc bpt d
      | none => List.replicate bpt 0), c.length = bpt := by
    intro c hc
    rcases List.mem_map.mp hc with ⟨x, _, rfl⟩
    cases frameBytes4 x with
    | none => simp
    | some d => simp [padTrunc_length]
  rw [flatten_chunk bpt _ tail j (by simpa using hj) hchunks]
  rw [List.getD_eq_getElem _ _ (by simpa using hj), List.getElem_map,
    List.getD_eq_getElem _ _ hj]

end Egami

namespace Egami

/-- C10: in the 3D concatenation an unrecognized record is skipped without
advancing the write offset, so each recognized record lands
skippedBefore-many frame slots earlier than its series position and the
unwritten final slots stay zero, while the buffer length is still
bytesPerFrame * record count; the 4D concatenation instead advances the
offset on skip, leaving the skipped timepoint slot zero-filled in place. -/
theorem concatenate_skip_offset_behavior (ps : List JSPixel) (g : RefGeometry)
    (spt : Nat) (hne : ps.length ≠ 0) :
    (∃ buf, concatenatePixelData ps g = .ok buf ∧
      buf.length = g.bytesPerFrame * ps.length ∧
      buf = ((ps.filterMap (frameBytes3 g.effBits)).map
          (padTrunc g.bytesPerFrame)).flatten ++
        List.replicate (g.bytesPerFrame *
          (ps.filter (fun p => (frameBytes3 g.effBits p).isNone)).length) 0 ∧
      ∀ j, j < ps.length → ∀ d,
        frameBytes3 g.effBits (ps.getD j .other) = some d →
        ((buf.drop ((j - skippedBefore g.effBits ps j) * g.bytesPerFrame)).take
          g.bytesPerFrame) = padTrunc g.bytesPerFrame d) ∧
    (∃ buf4, concatenate4DPixelData ps g spt = .ok buf4 ∧
      buf4.length = g.bytesPerFrame * spt * ps.length ∧
      ∀ j, j < ps.length →
        ((buf4.drop (j * (g.bytesPerFrame * spt))).take
          (g.bytesPerFrame * spt)) =
          (match frameBytes4 (ps.getD j .other) with
           | some d => padTrunc (g.bytesPerFrame * spt) d
           | none => List.replicate (g.bytesPerFrame * spt) 0)) := by
  have hrecle : (ps.filterMap (frameBytes3 g.effBits)).length ≤ ps.length :=
    List.length_filterMap_le _ _
  have hm3 : g.bytesPerFrame * (ps.filterMap (frameBytes3 g.effBits)).length ≤
      g.bytesPerFrame * ps.length :=
    Nat.mul_le_mul_left _ hrecle
  have hchar3 := concatLoop3_char g.effBits g.bytesPerFrame ps
    (g.bytesPerFrame * ps.length) hm3
  have hsplit := filterMap_length_split (frameBytes3 g.effBits) ps
  have hmulsplit : g.bytesPerFrame * ps.length =
      g.bytesPerFrame * (ps.filterMap (frameBytes3 g.effBits)).length +
        g.bytesPerFrame *
          (ps.filter (fun p => (frameBytes3 g.effBits p).isNone)).length := by
    rw [← Nat.mul_add, hsplit]
  constructor
  · refine ⟨concatLoop3 g.effBits g.bytesPerFrame ps
        (List.replicate (g.bytesPerFrame * ps.length) 0) 0, ?_, ?_, ?_, ?_⟩
    · unfold concatenatePixelData
      rw [if_neg hne]
    · rw [hchar3, List.length_append, List.length_replicate,
        flatten_length_const g.bytesPerFrame _ ?_, List.length_map]
      · omega
      · intro c hc
        rcases List.mem_map.mp hc with ⟨x, _, rfl⟩
        exact padTrunc_length _ x
    · rw [hchar3]
      congr 1
      congr 1
      omega
    · intro j hj d hd
      rw [hchar3]
      exact concat3_slot g.effBits g.bytesPerFrame ps _ j d hj hd
  · have hm4 : g.bytesPerFrame * spt * ps.length ≤
        g.bytesPerFrame * spt * ps.length := le_refl _
    have hchar4 := concatLoop4_char (g.bytesPerFrame * spt) ps
      (g.bytesPerFrame * spt * ps.length) hm4
    refine ⟨concatLoop4 (g.bytesPerFrame * spt) ps
        (List.replicate (g.bytesPerFrame * spt * ps.length) 0) 0, ?_, ?_, ?_⟩
    · unfold concatenate4DPixelData
      rw [if_neg hne]
    · rw [hchar4, List.length_append, List.length_replicate,
        flatten_length_const (g.bytesPerFrame * spt) _ ?_, List.length_map]
      · omega
      · intro c hc
        rcases List.mem_map.mp hc with ⟨x, _, rfl⟩
        cases frameBytes4 x with
        | none => simp
        | some d => simp [padTrunc_length]
    · intro j hj
      rw [hchar4]
      exact concat4_slot (g.bytesPerFrame * spt) ps _ j hj

def gWitness : RefGeometry :=
  { bitsAllocated := some 8
    rows := 2
    columns := 2
    samplesPerPixel := some 1 }

def psWitness : List JSPixel :=
  [.buffer [1, 2, 3], .other, .buffer [5, 6, 7, 8, 9]]

/-- Witness for the C10 theorem at a three-record input whose middle
record has an unrecognized pixel format. -/
theorem concatenate_skip_offset_behavior_witness :
    ∃ buf, concatenatePixelData psWitness gWitness = .ok buf ∧
      buf.length = gWitness.bytesPerFrame * psWitness.length := by
  obtain ⟨⟨buf, h1, h2, _⟩, _⟩ :=
    concatenate_skip_offset_behavior psWitness gWitness 2 (by decide)
  exact ⟨buf, h1, h2⟩

end Egami

namespace Egami

theorem jsOr_some_pos (n d : Nat) (h : 0 < n) : jsOr (some n) d = n := by
  cases n with
  | zero => omega
  | succ k => rfl

/-- C1: a series whose records are all single-frame is assembled as a 3D
volume: the header dim field is [3, columns, rows, recordCount, 1, 1, 1, 1],
the voxel payload (starting at byte 352) has length
recordCount * bytesPerPixelFrame, and record j contributes exactly z-slice j
in series order, truncated or zero-padded to bytesPerPixelFrame, with the
whole conversion succeeding rather than failing. -/
theorem assemble_single_frame_series (d0 : Dataset) (rest : List Dataset)
    (hframes : ∀ d ∈ d0 :: rest, jsOr d.numberOfFrames 1 = 1)
    (htmp : jsOr d0.numberOfTemporalPositions 1 = 1)
    (hpix : ∀ d ∈ d0 :: rest, ∃ p, d.pixelData = some p ∧
      (frameBytes3 d0.geometry.effBits p).isSome) :
    ∃ mf bytes, createMultiframeFromDatasets (d0 :: rest) = .ok mf ∧
      createNiftiFromMultiframe mf = .ok bytes ∧
      (headerOf mf).dim =
        [3, (d0.columns : Int), (d0.rows : Int),
          ((d0 :: rest).length : Int), 1, 1, 1, 1] ∧
      (bytes.drop 352).length =
        d0.geometry.bytesPerFrame * (d0 :: rest).length ∧
      (∀ j, j < (d0 :: rest).length → ∀ p d,
        ((d0 :: rest).getD j defaultDataset).pixelData = some p →
        frameBytes3 d0.geometry.effBits p = some d →
        (((bytes.drop 352).drop (j * d0.geometry.bytesPerFrame)).take
          d0.geometry.bytesPerFrame) = padTrunc d0.geometry.bytesPerFrame d) := by
  set ds := d0 :: rest with hds
  set g := d0.geometry with hg
  -- every record has (recognized) pixel data
  have hpsome : ∀ d ∈ ds, (Dataset.pixelData d).isSome := by
    intro d hd
    obtain ⟨p, hp, _⟩ := hpix d hd
    rw [hp]; rfl
  set payloadOf : Dataset → JSPixel := fun d => (Dataset.pixelData d).getD .other
    with hpayload
  have hmapform : ds.filterMap (fun d => Dataset.pixelData d) = ds.map payloadOf :=
    filterMap_eq_map_of_isSome _ .other ds hpsome
  set ps := ds.filterMap (fun d => Dataset.pixelData d) with hps
  have hpslen : ps.length = ds.length := by
    rw [hmapform, List.length_map]
  have hpslen0 : ps.length ≠ 0 := by
    rw [hpslen, hds]; simp
  -- every payload is recognized by the 3D loop
  have hrec : ∀ p ∈ ps, (frameBytes3 g.effBits p).isSome := by
    intro p hp
    rw [hmapform] at hp
    rcases List.mem_map.mp hp with ⟨d, hd, rfl⟩
    obtain ⟨q, hq, hqs⟩ := hpix d hd
    rw [hpayload]
    simpa [hq] using hqs
  -- the assembler takes the 3D branch
  have h1 : jsOr d0.numberOfFrames 1 = 1 := hframes d0 (by rw [hds]; simp)
  obtain ⟨mf, hmf, hmfframes⟩ :=
    createMultiframe_no_uniformity_check d0 rest h1 (by rw [← hds, ← hps]; exact hpslen0)
  -- recover the concrete multiframe produced by the 3D branch
  have hmfeq : createMultiframeFromDatasets ds =
      .ok { numberOfFrames := some ds.length
            numberOfTemporalPositions := d0.numberOfTemporalPositions
            numberOfSlices := d0.numberOfSlices
            rows := d0.rows
            columns := d0.columns
            bitsAllocated := d0.bitsAllocated
            samplesPerPixel := d0.samplesPerPixel
            pixelSpacing := d0.pixelSpacing
            sliceThickness := d0.sliceThickness
            pixelData := .buffer (concatLoop3 g.effBits g.bytesPerFrame ps
              (List.replicate (g.bytesPerFrame * ps.length) 0) 0) } := by
    rw [hds]
    unfold createMultiframeFromDatasets
    simp only [h1]
    rw [if_neg (by omega)]
    unfold concatenatePixelData
    rw [if_neg (by rw [← hds, ← hps]; exact hpslen0)]
  clear hmf hmfframes
  set buf := concatLoop3 g.effBits g.bytesPerFrame ps
    (List.replicate (g.bytesPerFrame * ps.length) 0) 0 with hbuf
  set mf2 : Multiframe :=
    { numberOfFrames := some ds.length
      numberOfTemporalPositions := d0.numberOfTemporalPositions
      numberOfSlices := d0.numberOfSlices
      rows := d0.rows
      columns := d0.columns
      bitsAllocated := d0.bitsAllocated
      samplesPerPixel := d0.samplesPerPixel
      pixelSpacing := d0.pixelSpacing
      sliceThickness := d0.sliceThickness
      pixelData := .buffer buf } with hmf2
  refine ⟨mf2, writeNiftiHeader (headerOf mf2) ++ List.replicate 4 0 ++ buf,
    hmfeq, ?_, ?_, ?_, ?_⟩
  · unfold createNiftiFromMultiframe
    rw [hmf2]
    rfl
  · -- the header dim list of the 3D case
    have hlen0 : 0 < ds.length := by rw [hds]; simp
    unfold headerOf
    rw [hmf2]
    simp only [jsOr_some_pos ds.length 1 hlen0, htmp]
    rw [if_neg (by omega)]
  · -- payload length
    have hdrop : (writeNiftiHeader (headerOf mf2) ++
        (List.replicate 4 0 ++ buf)).drop 352 = buf := by
      rw [show (352 : Nat) = (writeNiftiHeader (headerOf mf2)).length + 4 by
        rw [writeNiftiHeader_length]]
      rw [List.drop_append, List.drop_left' (List.length_replicate 4 0)]
    rw [List.append_assoc, hdrop]
    -- length of buf via the characterization
    have hall : ps.filterMap (frameBytes3 g.effBits) =
        ps.map (fun p => (frameBytes3 g.effBits p).getD []) :=
      filterMap_eq_map_of_isSome _ [] ps hrec
    have hm3 : g.bytesPerFrame * (ps.filterMap (frameBytes3 g.effBits)).length ≤
        g.bytesPerFrame * ps.length := by
      rw [hall, List.length_map]
    have hchar := concatLoop3_char g.effBits g.bytesPerFrame ps
      (g.bytesPerFrame * ps.length) hm3
    rw [hbuf, hchar, List.length_append, List.length_replicate,
      flatten_length_const g.bytesPerFrame _ ?_, List.length_map,
      hall, List.length_map, hpslen]
    · omega
    · intro c hc
      rcases List.mem_map.mp hc with ⟨x, _, rfl⟩
      exact padTrunc_length _ x
  · -- slice placement
    intro j hj p d hp hd
    have hdrop : (writeNiftiHeader (headerOf mf2) ++
        (List.replicate 4 0 ++ buf)).drop 352 = buf := by
      rw [show (352 : Nat) = (writeNiftiHeader (headerOf mf2)).length + 4 by
        rw [writeNiftiHeader_length]]
      rw [List.drop_append, List.drop_left' (List.length_replicate 4 0)]
    rw [List.append_assoc, hdrop]
    have hall : ps.filterMap (frameBytes3 g.effBits) =
        ps.map (fun p => (frameBytes3 g.effBits p).getD []) :=
      filterMap_eq_map_of_isSome _ [] ps hrec
    have hm3 : g.bytesPerFrame * (ps.filterMap (frameBytes3 g.effBits)).length ≤
        g.bytesPerFrame * ps.length := by
      rw [hall, List.length_map]
    have hchar := concatLoop3_char g.effBits g.bytesPerFrame ps
      (g.bytesPerFrame * ps.length) hm3
    -- the payload at position j of ps is p
    have hjps : j < ps.length := by rw [hpslen]; exact hj
    have hpsgetD : ps.getD j .other = p := by
      rw [hmapform]
      have : payloadOf defaultDataset = JSPixel.other := by rw [hpayload]; rfl
      rw [← this, List.getD_map, hpayload]
      simp only
      rw [hp]
      rfl
    -- no record before j is skipped
    have hskip0 : skippedBefore g.effBits ps j = 0 := by
      unfold skippedBefore
      rw [List.length_eq_zero]
      rw [List.filter_eq_nil_iff]
      intro p' hp'
      have hmem : p' ∈ ps := List.take_subset _ _ hp'
      have := hrec p' hmem
      simp [Option.isNone_iff_eq_none]
      intro hnone
      rw [hnone] at this
      simp at this
    have hslot := concat3_slot g.effBits g.bytesPerFrame ps
      (List.replicate (g.bytesPerFrame * ps.length -
        g.bytesPerFrame * (ps.filterMap (frameBytes3 g.effBits)).length) 0)
      j d hjps (by rw [hpsgetD]; exact hd)
    rw [hskip0, Nat.sub_zero] at hslot
    rw [hbuf, hchar]
    exact hslot

end Egami

namespace Egami

/-- Witness series: the second record's pixel data is shorter than one
frame and must be zero-padded. -/
def dsSingleFrameShort : Dataset :=
  { dsSingleFrame with pixelData := some (.buffer [7, 7]) }

/-- Witness for the C1 theorem at a concrete two-record single-frame
series. -/
theorem assemble_single_frame_series_witness :
    ∃ mf bytes,
      createMultiframeFromDatasets [dsSingleFrame, dsSingleFrameShort] = .ok mf ∧
      createNiftiFromMultiframe mf = .ok bytes ∧
      (headerOf mf).dim = [3, 2, 2, 2, 1, 1, 1, 1] ∧
      (bytes.drop 352).length = 16 := by
  obtain ⟨mf, bytes, h1, h2, h3, h4, _⟩ :=
    assemble_single_frame_series dsSingleFrame [dsSingleFrameShort]
      (by intro d hd; fin_cases hd <;> decide)
      (by decide)
      (by
        intro d hd
        fin_cases hd
        · exact ⟨.buffer [1, 0, 2, 0, 3, 0, 4, 0], rfl, rfl⟩
        · exact ⟨.buffer [7, 7], rfl, rfl⟩)
  refine ⟨mf, bytes, h1, h2, ?_, ?_⟩
  · rw [h3]
    norm_num [dsSingleFrame, defaultDataset]
  · rw [h4]; decide

/-! ### Little-endian field reads (the decoder side)

The volumetric decoder itself is the external nifti-reader-js library, not
part of this repository.  Modelled from the spec: decoding reads the same
fixed little-endian field layout back (byte-exact inverse of the writer),
rejecting input shorter than 348 bytes or with an unrecognized magic
cookie. -/

def readU8 (b : List Nat) (i : Nat) : Nat := b.getD i 0

def readU16 (b : List Nat) (i : Nat) : Nat := readU8 b i + 256 * readU8 b (i + 1)

def readI16 (b : List Nat) (i : Nat) : Int := ofBits16 (readU16 b i)

def readU32 (b : List Nat) (i : Nat) : Nat :=
  readU8 b i + 256 * readU8 b (i + 1) + 65536 * readU8 b (i + 2) +
    16777216 * readU8 b (i + 3)

/-- ASCII bytes of the single-file magic cookie. -/
def niftiMagic : List Nat := [110, 43, 49, 0]

/-- Header fields recovered by decoding (geometry and type fields named by
the round-trip law). -/
structure DecodedHeader where
  dim : List Int
  pixdim : List Nat
  datatype : Int
  bitpix : Int
  scl_slope : Nat
  scl_inter : Nat
  vox_offset : Nat
  qform_code : Int
  sform_code : Int
  srow_x : List Nat
  srow_y : List Nat
  srow_z : List Nat
  magic : List Nat
deriving DecidableEq

/-- Modelled from the spec: the header decoder reads the fixed 348-byte
little-endian layout back and rejects short input or a bad magic cookie
(the concrete decoder is the external nifti-reader-js collaborator). -/
def readNiftiHeader (b : List Nat) : Option DecodedHeader :=
  if b.length < 348 then none
  else if [readU8 b 344, readU8 b 345, readU8 b 346, readU8 b 347] ≠ niftiMagic
    then none
  else some
    { dim := [readI16 b 40, readI16 b 42, readI16 b 44, readI16 b 46,
        readI16 b 48, readI16 b 50, readI16 b 52, readI16 b 54]
      pixdim := [readU32 b 76, readU32 b 80, readU32 b 84, readU32 b 88,
        readU32 b 92, readU32 b 96, readU32 b 100, readU32 b 104]
      datatype := readI16 b 70
      bitpix := readI16 b 72
      scl_slope := readU32 b 112
      scl_inter := readU32 b 116
      vox_offset := readU32 b 108
      qform_code := readI16 b 252
      sform_code := readI16 b 254
      srow_x := [readU32 b 280, readU32 b 284, readU32 b 288, readU32 b 292]
      srow_y := [readU32 b 296, readU32 b 300, readU32 b 304, readU32 b 308]
      srow_z := [readU32 b 312, readU32 b 316, readU32 b 320, readU32 b 324]
      magic := [readU8 b 344, readU8 b 345, readU8 b 346, readU8 b 347] }

end Egami

namespace Egami

set_option maxRecDepth 4000 in
/-- C8: every file produced by createNiftiFromMultiframe carries the
16-bit signed integer datatype code (4) at header offset 70 and bitpix 16
at offset 72, regardless of the source data. -/
theorem datatype_always_int16 (m : Multiframe) (bytes : List Nat)
    (h : createNiftiFromMultiframe m = .ok bytes) :
    readI16 bytes 70 = TYPE_INT16 ∧ readI16 bytes 72 = 16 := by
  unfold createNiftiFromMultiframe at h
  cases himg : imageDataOf m.pixelData with
  | error e => rw [himg] at h; cases h
  | ok img =>
    rw [himg] at h
    injection h with h
    subst h
    have hlen : (writeNiftiHeader (headerOf m)).length = 348 :=
      writeNiftiHeader_length _
    have hget : ∀ i, i < 348 →
        (writeNiftiHeader (headerOf m) ++
          (List.replicate 4 0 ++ img)).getD i 0 =
          (writeNiftiHeader (headerOf m)).getD i 0 := by
      intro i hi
      exact List.getD_append _ _ _ _ (by omega)
    constructor
    · unfold readI16 readU16 readU8
      rw [List.append_assoc, hget 70 (by omega), hget 71 (by omega)]
      simp [writeNiftiHeader, writeDimField, writePixdimField, writeSrow,
        writeText, bytesLE16i, bytesLE32n, bytesF32, List.getD_append,
        List.getD_append_right, headerOf, TYPE_INT16, ofBits16, toBits16]
    · unfold readI16 readU16 readU8
      rw [List.append_assoc, hget 72 (by omega), hget 73 (by omega)]
      simp [writeNiftiHeader, writeDimField, writePixdimField, writeSrow,
        writeText, bytesLE16i, bytesLE32n, bytesF32, List.getD_append,
        List.getD_append_right, headerOf, TYPE_INT16, ofBits16, toBits16]

/-- A minimal multiframe used as witness input. -/
def mfWitness : Multiframe :=
  { numberOfFrames := some 1
    numberOfTemporalPositions := none
    numberOfSlices := none
    rows := 1
    columns := 1
    bitsAllocated := some 16
    samplesPerPixel := some 1
    pixelSpacing := none
    sliceThickness := none
    pixelData := .buffer [5, 0] }

/-- Witness for the C8 theorem on a concrete one-voxel multiframe. -/
theorem datatype_always_int16_witness :
    readI16 (writeNiftiHeader (headerOf mfWitness) ++
      List.replicate 4 0 ++ [5, 0]) 70 = TYPE_INT16 := by
  exact (datatype_always_int16 mfWitness _ rfl).1

end Egami

namespace Egami

/-! ### Segment decomposition of the serialized header

To reason about byte offsets without unfolding the whole 348-byte term,
the writer output is regrouped into named segments with known lengths. -/

def hdrPre40 (h : NiftiHeader) : List Nat :=
  bytesLE32n 348 ++ List.replicate 10 0 ++ List.replicate 18 0 ++
  bytesLE32n 16384 ++ bytesLE16i 0 ++ [h.regular % 256] ++ [h.dim_info % 256]

def hdrSeg56 (h : NiftiHeader) : List Nat :=
  bytesF32 h.intent_p1 ++ bytesF32 h.intent_p2 ++ bytesF32 h.intent_p3 ++
  bytesLE16i h.intent_code

def hdrSeg120 (h : NiftiHeader) : List Nat :=
  bytesLE16i h.slice_end ++ [h.slice_code % 256] ++ [h.xyzt_units % 256] ++
  bytesF32 h.cal_max ++ bytesF32 h.cal_min ++ bytesF32 0 ++ bytesF32 0 ++
  bytesLE32n 0 ++ bytesLE32n 0 ++ writeText (h.descrip.take 79) 80 ++
  List.replicate 24 0

def hdrSeg256 (h : NiftiHeader) : List Nat :=
  bytesF32 h.quatern_b ++ bytesF32 h.quatern_c ++ bytesF32 h.quatern_d ++
  bytesF32 h.qoffset_x ++ bytesF32 h.qoffset_y ++ bytesF32 h.qoffset_z

theorem hdrPre40_length (h : NiftiHeader) : (hdrPre40 h).length = 40 := by
  simp [hdrPre40, bytesLE32n, bytesLE16i]

theorem hdrSeg56_length (h : NiftiHeader) : (hdrSeg56 h).length = 14 := by
  simp [hdrSeg56, bytesF32, bytesLE32n, bytesLE16i]

theorem hdrSeg120_length (h : NiftiHeader) : (hdrSeg120 h).length = 132 := by
  simp [hdrSeg120, bytesF32, bytesLE32n, bytesLE16i, writeText]
  omega

theorem hdrSeg256_length (h : NiftiHeader) : (hdrSeg256 h).length = 24 := by
  simp [hdrSeg256, bytesF32, bytesLE32n]

theorem writeDimField_length (d : List Int) : (writeDimField d).length = 16 := by
  simp [writeDimField, bytesLE16i]

theorem writePixdimField_length (p : List Nat) :
    (writePixdimField p).length = 32 := by
  simp [writePixdimField, bytesF32, bytesLE32n]

theorem writeSrow_length (s : List Nat) : (writeSrow s).length = 16 := by
  simp [writeSrow, bytesF32, bytesLE32n]

theorem bytesLE16i_length (v : Int) : (bytesLE16i v).length = 2 := by
  simp [bytesLE16i]

theorem bytesF32_length (p : Nat) : (bytesF32 p).length = 4 := by
  simp [bytesF32, bytesLE32n]

/-- The writer output regrouped as right-nested segments. -/
theorem writeNiftiHeader_split (h : NiftiHeader) :
    writeNiftiHeader h =
      hdrPre40 h ++ (writeDimField h.dim ++ (hdrSeg56 h ++
      (bytesLE16i h.datatype ++ (bytesLE16i h.bitpix ++
      (bytesLE16i h.slice_start ++ (writePixdimField h.pixdim ++
      (bytesF32 h.vox_offset ++ (bytesF32 h.scl_slope ++
      (bytesF32 h.scl_inter ++ (hdrSeg120 h ++ (bytesLE16i h.qform_code ++
      (bytesLE16i h.sform_code ++ (hdrSeg256 h ++ (writeSrow h.srow_x ++
      (writeSrow h.srow_y ++ (writeSrow h.srow_z ++ (List.replicate 16 0 ++
      writeText h.magic 4))))))))))))))))) := by
  simp [writeNiftiHeader, hdrPre40, hdrSeg56, hdrSeg120, hdrSeg256,
    List.append_assoc]

theorem readU8_drop (b : List Nat) (i j : Nat) :
    readU8 (b.drop i) j = readU8 b (i + j) := by
  simp [readU8, List.getD, List.getElem?_drop]

end Egami

namespace Egami

theorem hdr_drop40 (h : NiftiHeader) :
    (writeNiftiHeader h).drop 40 =
      writeDimField h.dim ++ (hdrSeg56 h ++ (bytesLE16i h.datatype ++ (bytesLE16i h.bitpix ++ (bytesLE16i h.slice_start ++ (writePixdimField h.pixdim ++ (bytesF32 h.vox_offset ++ (bytesF32 h.scl_slope ++ (bytesF32 h.scl_inter ++ (hdrSeg120 h ++ (bytesLE16i h.qform_code ++ (bytesLE16i h.sform_code ++ (hdrSeg256 h ++ (writeSrow h.srow_x ++ (writeSrow h.srow_y ++ (writeSrow h.srow_z ++ (List.replicate 16 0 ++ (writeText h.magic 4))))))))))))))))) := by
  rw [writeNiftiHeader_split]
  exact List.drop_left' (hdrPre40_length h)

theorem hdr_drop56 (h : NiftiHeader) :
    (writeNiftiHeader h).drop 56 =
      hdrSeg56 h ++ (bytesLE16i h.datatype ++ (bytesLE16i h.bitpix ++ (bytesLE16i h.slice_start ++ (writePixdimField h.pixdim ++ (bytesF32 h.vox_offset ++ (bytesF32 h.scl_slope ++ (bytesF32 h.scl_inter ++ (hdrSeg120 h ++ (bytesLE16i h.qform_code ++ (bytesLE16i h.sform_code ++ (hdrSeg256 h ++ (writeSrow h.srow_x ++ (writeSrow h.srow_y ++ (writeSrow h.srow_z ++ (List.replicate 16 0 ++ (writeText h.magic 4)))))))))))))))) := by
  rw [show (56 : Nat) = 40 + 16 by norm_num, ← List.drop_drop,
    hdr_drop40 h]
  exact List.drop_left' (writeDimField_length h.dim)

theorem hdr_drop70 (h : NiftiHeader) :
    (writeNiftiHeader h).drop 70 =
      bytesLE16i h.datatype ++ (bytesLE16i h.bitpix ++ (bytesLE16i h.slice_start ++ (writePixdimField h.pixdim ++ (bytesF32 h.vox_offset ++ (bytesF32 h.scl_slope ++ (bytesF32 h.scl_inter ++ (hdrSeg120 h ++ (bytesLE16i h.qform_code ++ (bytesLE16i h.sform_code ++ (hdrSeg256 h ++ (writeSrow h.srow_x ++ (writeSrow h.srow_y ++ (writeSrow h.srow_z ++ (List.replicate 16 0 ++ (writeText h.magic 4))))))))))))))) := by
  rw [show (70 : Nat) = 56 + 14 by norm_num, ← List.drop_drop,
    hdr_drop56 h]
  exact List.drop_left' (hdrSeg56_length h)

theorem hdr_drop72 (h : NiftiHeader) :
    (writeNiftiHeader h).drop 72 =
      bytesLE16i h.bitpix ++ (bytesLE16i h.slice_start ++ (writePixdimField h.pixdim ++ (bytesF32 h.vox_offset ++ (bytesF32 h.scl_slope ++ (bytesF32 h.scl_inter ++ (hdrSeg120 h ++ (bytesLE16i h.qform_code ++ (bytesLE16i h.sform_code ++ (hdrSeg256 h ++ (writeSrow h.srow_x ++ (writeSrow h.srow_y ++ (writeSrow h.srow_z ++ (List.replicate 16 0 ++ (writeText h.magic 4)))))))))))))) := by
  rw [show (72 : Nat) = 70 + 2 by norm_num, ← List.drop_drop,
    hdr_drop70 h]
  exact List.drop_left' (bytesLE16i_length h.datatype)

theorem hdr_drop74 (h : NiftiHeader) :
    (writeNiftiHeader h).drop 74 =
      bytesLE16i h.slice_start ++ (writePixdimField h.pixdim ++ (bytesF32 h.vox_offset ++ (bytesF32 h.scl_slope ++ (bytesF32 h.scl_inter ++ (hdrSeg120 h ++ (bytesLE16i h.qform_code ++ (bytesLE16i h.sform_code ++ (hdrSeg256 h ++ (writeSrow h.srow_x ++ (writeSrow h.srow_y ++ (writeSrow h.srow_z ++ (List.replicate 16 0 ++ (writeText h.magic 4))))))))))))) := by
  rw [show (74 : Nat) = 72 + 2 by norm_num, ← List.drop_drop,
    hdr_drop72 h]
  exact List.drop_left' (bytesLE16i_length h.bitpix)

theorem hdr_drop76 (h : NiftiHeader) :
    (writeNiftiHeader h).drop 76 =
      writePixdimField h.pixdim ++ (bytesF32 h.vox_offset ++ (bytesF32 h.scl_slope ++ (bytesF32 h.scl_inter ++ (hdrSeg120 h ++ (bytesLE16i h.qform_code ++ (bytesLE16i h.sform_code ++ (hdrSeg256 h ++ (writeSrow h.srow_x ++ (writeSrow h.srow_y ++ (writeSrow h.srow_z ++ (List.replicate 16 0 ++ (writeText h.magic 4)))))))))))) := by
  rw [show (76 : Nat) = 74 + 2 by norm_num, ← List.drop_drop,
    hdr_drop74 h]
  exact List.drop_left' (bytesLE16i_length h.slice_start)

theorem hdr_drop108 (h : NiftiHeader) :
    (writeNiftiHeader h).drop 108 =
      bytesF32 h.vox_offset ++ (bytesF32 h.scl_slope ++ (bytesF32 h.scl_inter ++ (hdrSeg120 h ++ (bytesLE16i h.qform_code ++ (bytesLE16i h.sform_code ++ (hdrSeg256 h ++ (writeSrow h.srow_x ++ (writeSrow h.srow_y ++ (writeSrow h.srow_z ++ (List.replicate 16 0 ++ (writeText h.magic 4))))))))))) := by
  rw [show (108 : Nat) = 76 + 32 by norm_num, ← List.drop_drop,
    hdr_drop76 h]
  exact List.drop_left' (writePixdimField_length h.pixdim)

theorem hdr_drop112 (h : NiftiHeader) :
    (writeNiftiHeader h).drop 112 =
      bytesF32 h.scl_slope ++ (bytesF32 h.scl_inter ++ (hdrSeg120 h ++ (bytesLE16i h.qform_code ++ (bytesLE16i h.sform_code ++ (hdrSeg256 h ++ (writeSrow h.srow_x ++ (writeSrow h.srow_y ++ (writeSrow h.srow_z ++ (List.replicate 16 0 ++ (writeText h.magic 4)))))))))) := by
  rw [show (112 : Nat) = 108 + 4 by norm_num, ← List.drop_drop,
    hdr_drop108 h]
  exact List.drop_left' (bytesF32_length h.vox_offset)

theorem hdr_drop116 (h : NiftiHeader) :
    (writeNiftiHeader h).drop 116 =
      bytesF32 h.scl_inter ++ (hdrSeg120 h ++ (bytesLE16i h.qform_code ++ (bytesLE16i h.sform_code ++ (hdrSeg256 h ++ (writeSrow h.srow_x ++ (writeSrow h.srow_y ++ (writeSrow h.srow_z ++ (List.replicate 16 0 ++ (writeText h.magic 4))))))))) := by
  rw [show (116 : Nat) = 112 + 4 by norm_num, ← List.drop_drop,
    hdr_drop112 h]
  exact List.drop_left' (bytesF32_length h.scl_slope)

theorem hdr_drop120 (h : NiftiHeader) :
    (writeNiftiHeader h).drop 120 =
      hdrSeg120 h ++ (bytesLE16i h.qform_code ++ (bytesLE16i h.sform_code ++ (hdrSeg256 h ++ (writeSrow h.srow_x ++ (writeSrow h.srow_y ++ (writeSrow h.srow_z ++ (List.replicate 16 0 ++ (writeText h.magic 4)))))))) := by
  rw [show (120 : Nat) = 116 + 4 by norm_num, ← List.drop_drop,
    hdr_drop116 h]
  exact List.drop_left' (bytesF32_length h.scl_inter)

theorem hdr_drop252 (h : NiftiHeader) :
    (writeNiftiHeader h).drop 252 =
      bytesLE16i h.qform_code ++ (bytesLE16i h.sform_code ++ (hdrSeg256 h ++ (writeSrow h.srow_x ++ (writeSrow h.srow_y ++ (writeSrow h.srow_z ++ (List.replicate 16 0 ++ (writeText h.magic 4))))))) := by
  rw [show (252 : Nat) = 120 + 132 by norm_num, ← List.drop_drop,
    hdr_drop120 h]
  exact List.drop_left' (hdrSeg120_length h)

theorem hdr_drop254 (h : NiftiHeader) :
    (writeNiftiHeader h).drop 254 =
      bytesLE16i h.sform_code ++ (hdrSeg256 h ++ (writeSrow h.srow_x ++ (writeSrow h.srow_y ++ (writeSrow h.srow_z ++ (List.replicate 16 0 ++ (writeText h.magic 4)))))) := by
  rw [show (254 : Nat) = 252 + 2 by norm_num, ← List.drop_drop,
    hdr_drop252 h]
  exact List.drop_left' (bytesLE16i_length h.qform_code)

theorem hdr_drop256 (h : NiftiHeader) :
    (writeNiftiHeader h).drop 256 =
      hdrSeg256 h ++ (writeSrow h.srow_x ++ (writeSrow h.srow_y ++ (writeSrow h.srow_z ++ (List.replicate 16 0 ++ (writeText h.magic 4))))) := by
  rw [show (256 : Nat) = 254 + 2 by norm_num, ← List.drop_drop,
    hdr_drop254 h]
  exact List.drop_left' (bytesLE16i_length h.sform_code)

theorem hdr_drop280 (h : NiftiHeader) :
    (writeNiftiHeader h).drop 280 =
      writeSrow h.srow_x ++ (writeSrow h.srow_y ++ (writeSrow h.srow_z ++ (List.replicate 16 0 ++ (writeText h.magic 4)))) := by
  rw [show (280 : Nat) = 256 + 24 by norm_num, ← List.drop_drop,
    hdr_drop256 h]
  exact List.drop_left' (hdrSeg256_length h)

theorem hdr_drop296 (h : NiftiHeader) :
    (writeNiftiHeader h).drop 296 =
      writeSrow h.srow_y ++ (writeSrow h.srow_z ++ (List.replicate 16 0 ++ (writeText h.magic 4))) := by
  rw [show (296 : Nat) = 280 + 16 by norm_num, ← List.drop_drop,
    hdr_drop280 h]
  exact List.drop_left' (writeSrow_length h.srow_x)

theorem hdr_drop312 (h : NiftiHeader) :
    (writeNiftiHeader h).drop 312 =
      writeSrow h.srow_z ++ (List.replicate 16 0 ++ (writeText h.magic 4)) := by
  rw [show (312 : Nat) = 296 + 16 by norm_num, ← List.drop_drop,
    hdr_drop296 h]
  exact List.drop_left' (writeSrow_length h.srow_y)

theorem hdr_drop328 (h : NiftiHeader) :
    (writeNiftiHeader h).drop 328 =
      List.replicate 16 0 ++ (writeText h.magic 4) := by
  rw [show (328 : Nat) = 312 + 16 by norm_num, ← List.drop_drop,
    hdr_drop312 h]
  exact List.drop_left' (writeSrow_length h.srow_z)

theorem hdr_drop344 (h : NiftiHeader) :
    (writeNiftiHeader h).drop 344 =
      writeText h.magic 4 := by
  rw [show (344 : Nat) = 328 + 16 by norm_num, ← List.drop_drop,
    hdr_drop328 h]
  exact List.drop_left' (List.length_replicate 16 0)

end Egami
namespace Egami

theorem readLE16_inv (v : Int) (h0 : 0 ≤ v) (hv : v < 32768) :
    ofBits16 (toBits16 v % 256 + 256 * (toBits16 v / 256)) = v := by
  unfold ofBits16 toBits16
  have hn : ((v % 65536).toNat) = v.toNat := by omega
  rw [hn, if_pos (by omega)]
  omega

theorem readI16_append_left (a b : List Nat) (k : Nat) (hk : k + 1 < a.length) :
    readI16 (a ++ b) k = readI16 a k := by
  unfold readI16 readU16 readU8
  rw [List.getD_append _ _ _ _ (by omega), List.getD_append _ _ _ _ (by omega)]

theorem readI16_drop (b : List Nat) (i k : Nat) :
    readI16 (b.drop i) k = readI16 b (i + k) := by
  unfold readI16 readU16
  rw [readU8_drop, readU8_drop]
  rw [Nat.add_assoc]

theorem readU32_append_left (a b : List Nat) (k : Nat) (hk : k + 3 < a.length) :
    readU32 (a ++ b) k = readU32 a k := by
  unfold readU32 readU8
  rw [List.getD_append _ _ _ _ (by omega), List.getD_append _ _ _ _ (by omega),
    List.getD_append _ _ _ _ (by omega), List.getD_append _ _ _ _ (by omega)]

theorem readU32_drop (b : List Nat) (i k : Nat) :
    readU32 (b.drop i) k = readU32 b (i + k) := by
  unfold readU32
  rw [readU8_drop, readU8_drop, readU8_drop, readU8_drop,
    show i + (k + 1) = i + k + 1 by omega,
    show i + (k + 2) = i + k + 2 by omega,
    show i + (k + 3) = i + k + 3 by omega]

theorem readI16_writeDimField (d : List Int) (rest : List Nat) (i : Nat)
    (hi : i < 8) (h0 : 0 ≤ d.getD i 0) (hv : d.getD i 0 < 32768) :
    readI16 (writeDimField d ++ rest) (2 * i) = d.getD i 0 := by
  interval_cases i <;>
  · simp only [List.getD, List.get?_eq_getElem?] at h0 hv
    unfold readI16 readU16 readU8 writeDimField bytesLE16i
    norm_num [List.append_assoc, List.cons_append, List.nil_append]
    unfold ofBits16 toBits16
    split <;> omega

theorem readU32_bytesF32 (p : Nat) (rest : List Nat) (hp : p < 4294967296) :
    readU32 (bytesF32 p ++ rest) 0 = p := by
  unfold readU32 readU8 bytesF32 bytesLE32n
  simp only [List.cons_append, List.nil_append, List.getD_cons_zero,
    List.getD_cons_succ]
  omega

theorem readU32_writePixdimField (p : List Nat) (rest : List Nat) (i : Nat)
    (hi : i < 8) (hp : p.getD i 0 < 4294967296) :
    readU32 (writePixdimField p ++ rest) (4 * i) = p.getD i 0 := by
  interval_cases i <;>
  · simp only [List.getD, List.get?_eq_getElem?] at hp
    unfold readU32 readU8 writePixdimField bytesF32 bytesLE32n
    norm_num [List.append_assoc, List.cons_append, List.nil_append]
    omega

theorem readU32_writeSrow (s : List Nat) (rest : List Nat) (i : Nat)
    (hi : i < 4) (hp : s.getD i 0 < 4294967296) :
    readU32 (writeSrow s ++ rest) (4 * i) = s.getD i 0 := by
  interval_cases i <;>
  · simp only [List.getD, List.get?_eq_getElem?] at hp
    unfold readU32 readU8 writeSrow bytesF32 bytesLE32n
    norm_num [List.append_assoc, List.cons_append, List.nil_append]
    omega

end Egami

namespace Egami

/-- Shape of the header dim list of an assembled volume: rank 4 with a
time axis, rank 3 without. -/
theorem headerOf_dim (m : Multiframe) :
    (headerOf m).dim =
      (if 1 < jsOr m.numberOfTemporalPositions 1 then
        [4, (m.columns : Int), (m.rows : Int),
          (jsOr m.numberOfSlices (jsOr m.numberOfFrames 1) : Int),
          (jsOr m.numberOfTemporalPositions 1 : Int), 1, 1, 1]
      else
        [3, (m.columns : Int), (m.rows : Int),
          (jsOr m.numberOfFrames 1 : Int), 1, 1, 1, 1]) := by
  by_cases hTgt : 1 < jsOr m.numberOfTemporalPositions 1 <;>
    simp [headerOf, hTgt]

/-- C2: an encoded file is the fixed 348-byte header followed by a 4-byte
zero-filled gap, with the voxel payload beginning at byte offset 352; the
eight-element dim field at offset 40 holds little-endian int16 values
[rank, x, y, z, t-or-1, 1, 1, 1] with rank 4 exactly when a time axis is
present and rank 3 otherwise; and the magic cookie bytes n, +, 1, NUL
occupy the header's final four bytes 344-347. -/
theorem nifti_layout (m : Multiframe) (img bytes : List Nat)
    (himg : imageDataOf m.pixelData = .ok img)
    (h : createNiftiFromMultiframe m = .ok bytes)
    (hc : m.columns < 32768) (hr : m.rows < 32768)
    (hF : jsOr m.numberOfFrames 1 < 32768)
    (hS : jsOr m.numberOfSlices (jsOr m.numberOfFrames 1) < 32768)
    (hT : jsOr m.numberOfTemporalPositions 1 < 32768) :
    bytes = writeNiftiHeader (headerOf m) ++ List.replicate 4 0 ++ img ∧
    (writeNiftiHeader (headerOf m)).length = 348 ∧
    bytes.take 348 = writeNiftiHeader (headerOf m) ∧
    (bytes.drop 348).take 4 = List.replicate 4 0 ∧
    bytes.drop 352 = img ∧
    (headerOf m).dim =
      (if 1 < jsOr m.numberOfTemporalPositions 1 then
        [4, (m.columns : Int), (m.rows : Int),
          (jsOr m.numberOfSlices (jsOr m.numberOfFrames 1) : Int),
          (jsOr m.numberOfTemporalPositions 1 : Int), 1, 1, 1]
      else
        [3, (m.columns : Int), (m.rows : Int),
          (jsOr m.numberOfFrames 1 : Int), 1, 1, 1, 1]) ∧
    (∀ i, i < 8 → readI16 bytes (40 + 2 * i) = (headerOf m).dim.getD i 0) ∧
    [readU8 bytes 344, readU8 bytes 345, readU8 bytes 346, readU8 bytes 347] =
      niftiMagic := by
  unfold createNiftiFromMultiframe at h
  rw [himg] at h
  injection h with h
  subst h
  have hlen : (writeNiftiHeader (headerOf m)).length = 348 :=
    writeNiftiHeader_length _
  have hdimbound : ∀ i, i < 8 → 0 ≤ (headerOf m).dim.getD i 0 ∧
      (headerOf m).dim.getD i 0 < 32768 := by
    intro i hi
    rw [headerOf_dim]
    by_cases hTgt : 1 < jsOr m.numberOfTemporalPositions 1 <;>
      [rw [if_pos hTgt]; rw [if_neg hTgt]] <;>
      interval_cases i <;>
      simp <;> omega
  refine ⟨rfl, hlen, ?_, ?_, ?_, headerOf_dim m, ?_, ?_⟩
  · rw [List.append_assoc, List.take_left' hlen]
  · rw [List.append_assoc, List.drop_left' hlen,
      List.take_left' (List.length_replicate 4 0)]
  · rw [List.append_assoc,
      show (352 : Nat) = (writeNiftiHeader (headerOf m)).length + 4 by omega,
      List.drop_append, List.drop_left' (List.length_replicate 4 0)]
  · intro i hi
    rw [List.append_assoc,
      readI16_append_left _ _ _ (by rw [hlen]; omega),
      show (40 : Nat) + 2 * i = 40 + 2 * i from rfl,
      ← readI16_drop, hdr_drop40]
    exact readI16_writeDimField _ _ i hi (hdimbound i hi).1 (hdimbound i hi).2
  · have hmg : (writeNiftiHeader (headerOf m)).drop 344 =
        writeText (headerOf m).magic 4 := hdr_drop344 _
    have hmagic : (headerOf m).magic = niftiMagic := by
      simp [headerOf, niftiMagic]
    rw [hmagic] at hmg
    have hread : ∀ j, j < 4 → readU8 (writeNiftiHeader (headerOf m) ++
        (List.replicate 4 0 ++ img)) (344 + j) =
        (writeText niftiMagic 4).getD j 0 := by
      intro j hj
      unfold readU8
      rw [List.getD_append _ _ _ _ (by omega), ← hmg]
      have := readU8_drop (writeNiftiHeader (headerOf m)) 344 j
      unfold readU8 at this
      rw [this]
    rw [List.append_assoc]
    have e0 := hread 0 (by omega)
    have e1 := hread 1 (by omega)
    have e2 := hread 2 (by omega)
    have e3 := hread 3 (by omega)
    norm_num at e0 e1 e2 e3
    rw [e0, e1, e2, e3]
    rfl

/-- Witness for the C2 theorem on the concrete one-voxel multiframe. -/
theorem nifti_layout_witness :
    ∃ bytes, createNiftiFromMultiframe mfWitness = .ok bytes ∧
      bytes.drop 352 = [5, 0] ∧
      [readU8 bytes 344, readU8 bytes 345, readU8 bytes 346,
        readU8 bytes 347] = niftiMagic := by
  obtain ⟨-, -, -, -, h5, -, -, h8⟩ := nifti_layout mfWitness [5, 0]
    (writeNiftiHeader (headerOf mfWitness) ++ List.replicate 4 0 ++ [5, 0])
    rfl rfl (by decide) (by decide) (by decide) (by decide) (by decide)
  exact ⟨_, rfl, h5, h8⟩

end Egami

namespace Egami

theorem eq_list_of_length_eight {α : Type} (d : α) (l : List α)
    (hl : l.length = 8) :
    l = [l.getD 0 d, l.getD 1 d, l.getD 2 d, l.getD 3 d, l.getD 4 d,
      l.getD 5 d, l.getD 6 d, l.getD 7 d] := by
  rcases l with _ | ⟨a0, l⟩; · simp at hl
  rcases l with _ | ⟨a1, l⟩; · simp at hl
  rcases l with _ | ⟨a2, l⟩; · simp at hl
  rcases l with _ | ⟨a3, l⟩; · simp at hl
  rcases l with _ | ⟨a4, l⟩; · simp at hl
  rcases l with _ | ⟨a5, l⟩; · simp at hl
  rcases l with _ | ⟨a6, l⟩; · simp at hl
  rcases l with _ | ⟨a7, l⟩; · simp at hl
  rcases l with _ | ⟨a8, l⟩
  · rfl
  · simp at hl

theorem eq_list_of_length_four {α : Type} (d : α) (l : List α)
    (hl : l.length = 4) :
    l = [l.getD 0 d, l.getD 1 d, l.getD 2 d, l.getD 3 d] := by
  rcases l with _ | ⟨a0, l⟩; · simp at hl
  rcases l with _ | ⟨a1, l⟩; · simp at hl
  rcases l with _ | ⟨a2, l⟩; · simp at hl
  rcases l with _ | ⟨a3, l⟩; · simp at hl
  rcases l with _ | ⟨a4, l⟩
  · rfl
  · simp at hl

theorem readI16_bytesLE16i_zero (v : Int) (rest : List Nat)
    (h0 : 0 ≤ v) (hv : v < 32768) :
    readI16 (bytesLE16i v ++ rest) 0 = v := by
  unfold readI16 readU16 readU8 bytesLE16i
  norm_num
  unfold ofBits16 toBits16
  split <;> omega

end Egami

namespace Egami

/-- C3: decoding the encoded bytes of a constructed header yields every
geometry and type field back: dim, pixdim, datatype, bitpix, scale
slope/intercept, qform/sform codes, srow vectors, vox_offset and magic
(spec-modelled decoder; float fields round-trip as binary32 patterns). -/
theorem header_roundtrip (h : NiftiHeader)
    (hdimlen : h.dim.length = 8)
    (hdimbound : ∀ i, i < 8 → 0 ≤ h.dim.getD i 0 ∧ h.dim.getD i 0 < 32768)
    (hpixlen : h.pixdim.length = 8)
    (hpixbound : ∀ i, i < 8 → h.pixdim.getD i 0 < 4294967296)
    (hdt : 0 ≤ h.datatype ∧ h.datatype < 32768)
    (hbp : 0 ≤ h.bitpix ∧ h.bitpix < 32768)
    (hss : h.scl_slope < 4294967296) (hsi : h.scl_inter < 4294967296)
    (hvo : h.vox_offset < 4294967296)
    (hqf : 0 ≤ h.qform_code ∧ h.qform_code < 32768)
    (hsf : 0 ≤ h.sform_code ∧ h.sform_code < 32768)
    (hsxlen : h.srow_x.length = 4) (hsylen : h.srow_y.length = 4)
    (hszlen : h.srow_z.length = 4)
    (hsxb : ∀ i, i < 4 → h.srow_x.getD i 0 < 4294967296)
    (hsyb : ∀ i, i < 4 → h.srow_y.getD i 0 < 4294967296)
    (hszb : ∀ i, i < 4 → h.srow_z.getD i 0 < 4294967296)
    (hmagic : h.magic = niftiMagic) :
    readNiftiHeader (writeNiftiHeader h) = some
      { dim := h.dim, pixdim := h.pixdim, datatype := h.datatype,
        bitpix := h.bitpix, scl_slope := h.scl_slope,
        scl_inter := h.scl_inter, vox_offset := h.vox_offset,
        qform_code := h.qform_code, sform_code := h.sform_code,
        srow_x := h.srow_x, srow_y := h.srow_y, srow_z := h.srow_z,
        magic := h.magic } := by
  have hmg : (writeNiftiHeader h).drop 344 = writeText niftiMagic 4 := by
    rw [hdr_drop344, hmagic]
  have hmread : ∀ j, j < 4 →
      readU8 (writeNiftiHeader h) (344 + j) = niftiMagic.getD j 0 := by
    intro j hj
    have hd := readU8_drop (writeNiftiHeader h) 344 j
    rw [← hd, hmg]
    interval_cases j <;> rfl
  have e0 := hmread 0 (by omega)
  have e1 := hmread 1 (by omega)
  have e2 := hmread 2 (by omega)
  have e3 := hmread 3 (by omega)
  norm_num [niftiMagic] at e0 e1 e2 e3
  -- dim fields
  have hdimread : ∀ i, i < 8 →
      readI16 (writeNiftiHeader h) (40 + 2 * i) = h.dim.getD i 0 := by
    intro i hi
    rw [← readI16_drop, hdr_drop40]
    exact readI16_writeDimField _ _ i hi (hdimbound i hi).1 (hdimbound i hi).2
  have d0 := hdimread 0 (by omega)
  have d1 := hdimread 1 (by omega)
  have d2 := hdimread 2 (by omega)
  have d3 := hdimread 3 (by omega)
  have d4 := hdimread 4 (by omega)
  have d5 := hdimread 5 (by omega)
  have d6 := hdimread 6 (by omega)
  have d7 := hdimread 7 (by omega)
  norm_num at d0 d1 d2 d3 d4 d5 d6 d7
  -- pixdim fields
  have hpixread : ∀ i, i < 8 →
      readU32 (writeNiftiHeader h) (76 + 4 * i) = h.pixdim.getD i 0 := by
    intro i hi
    rw [← readU32_drop, hdr_drop76]
    exact readU32_writePixdimField _ _ i hi (hpixbound i hi)
  have p0 := hpixread 0 (by omega)
  have p1 := hpixread 1 (by omega)
  have p2 := hpixread 2 (by omega)
  have p3 := hpixread 3 (by omega)
  have p4 := hpixread 4 (by omega)
  have p5 := hpixread 5 (by omega)
  have p6 := hpixread 6 (by omega)
  have p7 := hpixread 7 (by omega)
  norm_num at p0 p1 p2 p3 p4 p5 p6 p7
  -- srow fields
  have hsxread : ∀ i, i < 4 →
      readU32 (writeNiftiHeader h) (280 + 4 * i) = h.srow_x.getD i 0 := by
    intro i hi
    rw [← readU32_drop, hdr_drop280]
    exact readU32_writeSrow _ _ i hi (hsxb i hi)
  have hsyread : ∀ i, i < 4 →
      readU32 (writeNiftiHeader h) (296 + 4 * i) = h.srow_y.getD i 0 := by
    intro i hi
    rw [← readU32_drop, hdr_drop296]
    exact readU32_writeSrow _ _ i hi (hsyb i hi)
  have hszread : ∀ i, i < 4 →
      readU32 (writeNiftiHeader h) (312 + 4 * i) = h.srow_z.getD i 0 := by
    intro i hi
    rw [← readU32_drop, hdr_drop312]
    exact readU32_writeSrow _ _ i hi (hszb i hi)
  have x0 := hsxread 0 (by omega)
  have x1 := hsxread 1 (by omega)
  have x2 := hsxread 2 (by omega)
  have x3 := hsxread 3 (by omega)
  have y0 := hsyread 0 (by omega)
  have y1 := hsyread 1 (by omega)
  have y2 := hsyread 2 (by omega)
  have y3 := hsyread 3 (by omega)
  have z0 := hszread 0 (by omega)
  have z1 := hszread 1 (by omega)
  have z2 := hszread 2 (by omega)
  have z3 := hszread 3 (by omega)
  norm_num at x0 x1 x2 x3 y0 y1 y2 y3 z0 z1 z2 z3
  -- scalar fields
  have hdtread : readI16 (writeNiftiHeader h) 70 = h.datatype := by
    have hd := readI16_drop (writeNiftiHeader h) 70 0
    norm_num at hd
    rw [← hd, hdr_drop70]
    exact readI16_bytesLE16i_zero _ _ hdt.1 hdt.2
  have hbpread : readI16 (writeNiftiHeader h) 72 = h.bitpix := by
    have hd := readI16_drop (writeNiftiHeader h) 72 0
    norm_num at hd
    rw [← hd, hdr_drop72]
    exact readI16_bytesLE16i_zero _ _ hbp.1 hbp.2
  have hqfread : readI16 (writeNiftiHeader h) 252 = h.qform_code := by
    have hd := readI16_drop (writeNiftiHeader h) 252 0
    norm_num at hd
    rw [← hd, hdr_drop252]
    exact readI16_bytesLE16i_zero _ _ hqf.1 hqf.2
  have hsfread : readI16 (writeNiftiHeader h) 254 = h.sform_code := by
    have hd := readI16_drop (writeNiftiHeader h) 254 0
    norm_num at hd
    rw [← hd, hdr_drop254]
    exact readI16_bytesLE16i_zero _ _ hsf.1 hsf.2
  have hvoread : readU32 (writeNiftiHeader h) 108 = h.vox_offset := by
    have hd := readU32_drop (writeNiftiHeader h) 108 0
    norm_num at hd
    rw [← hd, hdr_drop108]
    exact readU32_bytesF32 _ _ hvo
  have hssread : readU32 (writeNiftiHeader h) 112 = h.scl_slope := by
    have hd := readU32_drop (writeNiftiHeader h) 112 0
    norm_num at hd
    rw [← hd, hdr_drop112]
    exact readU32_bytesF32 _ _ hss
  have hsiread : readU32 (writeNiftiHeader h) 116 = h.scl_inter := by
    have hd := readU32_drop (writeNiftiHeader h) 116 0
    norm_num at hd
    rw [← hd, hdr_drop116]
    exact readU32_bytesF32 _ _ hsi
  unfold readNiftiHeader
  rw [if_neg (by rw [writeNiftiHeader_length]; omega)]
  rw [if_neg (by rw [e0, e1, e2, e3]; simp [niftiMagic])]
  rw [e0, e1, e2, e3, d0, d1, d2, d3, d4, d5, d6, d7,
    p0, p1, p2, p3, p4, p5, p6, p7, x0, x1, x2, x3, y0, y1, y2, y3,
    z0, z1, z2, z3, hdtread, hbpread, hqfread, hsfread, hvoread,
    hssread, hsiread]
  conv_rhs =>
    rw [eq_list_of_length_eight 0 h.dim hdimlen,
      eq_list_of_length_eight 0 h.pixdim hpixlen,
      eq_list_of_length_four 0 h.srow_x hsxlen,
      eq_list_of_length_four 0 h.srow_y hsylen,
      eq_list_of_length_four 0 h.srow_z hszlen, hmagic]
  simp [List.getD, List.get?_eq_getElem?, niftiMagic]

set_option maxRecDepth 4000 in
/-- Witness for the round-trip theorem at the concrete constructed
header of the one-voxel multiframe. -/
theorem header_roundtrip_witness :
    readNiftiHeader (writeNiftiHeader (headerOf mfWitness)) = some
      { dim := (headerOf mfWitness).dim
        pixdim := (headerOf mfWitness).pixdim
        datatype := (headerOf mfWitness).datatype
        bitpix := (headerOf mfWitness).bitpix
        scl_slope := (headerOf mfWitness).scl_slope
        scl_inter := (headerOf mfWitness).scl_inter
        vox_offset := (headerOf mfWitness).vox_offset
        qform_code := (headerOf mfWitness).qform_code
        sform_code := (headerOf mfWitness).sform_code
        srow_x := (headerOf mfWitness).srow_x
        srow_y := (headerOf mfWitness).srow_y
        srow_z := (headerOf mfWitness).srow_z
        magic := (headerOf mfWitness).magic } := by
  exact header_roundtrip (headerOf mfWitness) (by decide) (by decide)
    (by decide) (by decide) (by decide) (by decide) (by decide) (by decide)
    (by decide) (by decide) (by decide) (by decide) (by decide) (by decide)
    (by decide) (by decide) (by decide) (by decide)

end Egami

namespace Egami

/-! ### Plane-addressing lemmas for the slice extractor -/

theorem getD_range (n i : Nat) (d : Nat) (hi : i < n) :
    (List.range n).getD i d = i := by
  rw [List.getD_eq_getElem _ _ (by simpa using hi)]
  simp

theorem flatten_rows_getD {α : Type} (d : α) (w : Nat) :
    ∀ (rows : List (List α)) (v u : Nat), v < rows.length → u < w →
      (∀ r ∈ rows, r.length = w) →
      rows.flatten.getD (v * w + u) d = (rows.getD v []).getD u d := by
  intro rows
  induction rows with
  | nil => intro v u hv _ _; simp at hv
  | cons r rest ih =>
    intro v u hv hu hlen
    have hr : r.length = w := hlen r (by simp)
    cases v with
    | zero =>
      rw [List.flatten_cons, Nat.zero_mul, Nat.zero_add,
        List.getD_append _ _ _ _ (by omega), List.getD_cons_zero]
    | succ v =>
      rw [List.flatten_cons, List.getD_cons_succ,
        show (v + 1) * w + u = r.length + (v * w + u) by rw [hr]; ring,
        List.getD_append_right _ _ _ _ (by omega)]
      have : r.length + (v * w + u) - r.length = v * w + u := by omega
      rw [this]
      exact ih v u (by simpa using hv) hu (fun y hy => hlen y (by simp [hy]))

/-- Row v, column u of a plane built by the nested extraction loops. -/
theorem plane_sample {α : Type} (d : α) (w hg : Nat) (f : Nat → Nat → α)
    (v u : Nat) (hv : v < hg) (hu : u < w) :
    (((List.range hg).map (fun k =>
      (List.range w).map (fun j => f j k))).flatten).getD (v * w + u) d =
      f u v := by
  rw [flatten_rows_getD d w _ v u (by simpa using hv) hu ?hlen]
  · have hmap : ((List.range hg).map (fun k =>
        (List.range w).map (fun j => f j k))).getD v [] =
        (List.range w).map (fun j => f j v) := by
      rw [List.getD_eq_getElem _ _ (by simpa using hv)]
      simp
    rw [hmap, List.getD_eq_getElem _ _ (by simpa using hu)]
    simp
  · intro r hr
    rcases List.mem_map.mp hr with ⟨k, _, rfl⟩
    simp

/-- Row v, column u, channel ch of an RGB plane built by the nested
extraction loops (three samples pushed per position). -/
theorem plane_sample_rgb {α : Type} (d : α) (w hg : Nat)
    (f : Nat → Nat → Nat → α) (v u ch : Nat)
    (hv : v < hg) (hu : u < w) (hch : ch < 3) :
    (((List.range hg).map (fun k =>
      ((List.range w).map (fun j => [f 0 j k, f 1 j k, f 2 j k])).flatten)).flatten).getD
        ((v * w + u) * 3 + ch) d = f ch u v := by
  have hmain := flatten_rows_getD d (3 * w)
    ((List.range hg).map (fun k =>
      ((List.range w).map (fun j => [f 0 j k, f 1 j k, f 2 j k])).flatten))
    v (u * 3 + ch) (by simpa using hv) (by omega) ?hlen
  · rw [show (v * w + u) * 3 + ch = v * (3 * w) + (u * 3 + ch) by ring] at *
    rw [hmain]
    have hrow : ((List.range hg).map (fun k =>
        ((List.range w).map (fun j => [f 0 j k, f 1 j k, f 2 j k])).flatten)).getD
          v [] = ((List.range w).map (fun j => [f 0 j v, f 1 j v, f 2 j v])).flatten := by
      rw [List.getD_eq_getElem _ _ (by simpa using hv)]
      simp
    rw [hrow]
    have hinner := flatten_rows_getD d 3
      ((List.range w).map (fun j => [f 0 j v, f 1 j v, f 2 j v]))
      u ch (by simpa using hu) hch ?hlen2
    · rw [show u * 3 + ch = u * 3 + ch from rfl] at hinner
      rw [hinner]
      have hmap : ((List.range w).map
          (fun j => [f 0 j v, f 1 j v, f 2 j v])).getD u [] =
          [f 0 u v, f 1 u v, f 2 u v] := by
        rw [List.getD_eq_getElem _ _ (by simpa using hu)]
        simp
      rw [hmap]
      interval_cases ch <;> rfl
    · intro r hr
      rcases List.mem_map.mp hr with ⟨k, _, rfl⟩
      rfl
  · intro r hr
    rcases List.mem_map.mp hr with ⟨k, _, rfl⟩
    rw [flatten_length_const 3 _ ?_]
    · simp [Nat.mul_comm]
    · intro c hc
      rcases List.mem_map.mp hc with ⟨j, _, rfl⟩
      rfl

end Egami

namespace Egami

/-! ### Vertical-flip lemmas for the raster fill -/

/-- Distinct (row, column) pairs with columns below the width map to
distinct raster positions. -/
theorem rowcol_ne (w r r' x x' : Nat) (hx : x < w) (hx' : x' < w)
    (hne : r ≠ r') : r * w + x ≠ r' * w + x' := by
  rcases Nat.lt_or_ge r r' with hlt | hge
  · have h1 : r * w + x < (r + 1) * w := by
      rw [Nat.succ_mul]; omega
    have h2 : (r + 1) * w ≤ r' * w := Nat.mul_le_mul_right w hlt
    omega
  · have hlt : r' < r := by omega
    have h1 : r' * w + x' < (r' + 1) * w := by
      rw [Nat.succ_mul]; omega
    have h2 : (r' + 1) * w ≤ r * w := Nat.mul_le_mul_right w hlt
    omega

theorem fillPixel_untouched (w h : Nat) (vals : List Nat) (y x : Nat)
    (png : Nat → Nat) (j : Nat)
    (hj : ∀ c, c < 4 → j ≠ ((h - 1 - y) * w + x) * 4 + c) :
    fillGrayPixel w h vals y x png j = png j := by
  unfold fillGrayPixel updAt
  have h0 := hj 0 (by omega)
  have h1 := hj 1 (by omega)
  have h2 := hj 2 (by omega)
  have h3 := hj 3 (by omega)
  rw [if_neg (by omega), if_neg (by omega), if_neg (by omega),
    if_neg (by omega)]

theorem fillPixel_hit (w h : Nat) (vals : List Nat) (y x : Nat)
    (png : Nat → Nat) (c : Nat) (hc : c < 4) :
    fillGrayPixel w h vals y x png (((h - 1 - y) * w + x) * 4 + c) =
      (if c = 3 then 255 else vals.getD (y * w + x) 0) := by
  unfold fillGrayPixel updAt
  interval_cases c
  · rw [if_neg (by omega), if_neg (by omega), if_neg (by omega),
      if_pos (by omega)]
    rfl
  · rw [if_neg (by omega), if_neg (by omega), if_pos (by omega)]
    rfl
  · rw [if_neg (by omega), if_pos (by omega)]
    rfl
  · rw [if_pos (by omega)]
    rfl

theorem fillRow_foldl_untouched (w h : Nat) (vals : List Nat) (y : Nat) :
    ∀ (xs : List Nat) (png : Nat → Nat) (j : Nat),
      (∀ x ∈ xs, ∀ c, c < 4 → j ≠ ((h - 1 - y) * w + x) * 4 + c) →
      (xs.foldl (fun p x => fillGrayPixel w h vals y x p) png) j = png j := by
  intro xs
  induction xs with
  | nil => intro png j _; rfl
  | cons x rest ih =>
    intro png j hj
    rw [List.foldl_cons, ih _ j (fun q hq => hj q (by simp [hq]))]
    exact fillPixel_untouched w h vals y x png j (hj x (by simp))

theorem fillGrayRow_at (w h : Nat) (vals : List Nat) (y : Nat)
    (png : Nat → Nat) (x : Nat) (hx : x < w) (c : Nat) (hc : c < 4) :
    fillGrayRow w h vals y png (((h - 1 - y) * w + x) * 4 + c) =
      (if c = 3 then 255 else vals.getD (y * w + x) 0) := by
  unfold fillGrayRow
  have hsplit : List.range w = List.range (x + 1) ++
      (List.range (w - (x + 1))).map (fun t => (x + 1) + t) := by
    rw [← List.range_add]
    congr 1
    omega
  rw [hsplit, List.foldl_append]
  rw [fillRow_foldl_untouched w h vals y _ _ _ ?later]
  · rw [List.range_succ, List.foldl_append, List.foldl_cons, List.foldl_nil]
    exact fillPixel_hit w h vals y x _ c hc
  · intro q hq c' hc'
    rcases List.mem_map.mp hq with ⟨t, _, rfl⟩
    have hne : (h - 1 - y) * w + x ≠ (h - 1 - y) * w + (x + 1 + t) := by omega
    omega

theorem fillRows_foldl_untouched (w h : Nat) (vals : List Nat) :
    ∀ (ys : List Nat) (png : Nat → Nat) (j : Nat),
      (∀ y ∈ ys, ∀ x, x < w → ∀ c, c < 4 →
        j ≠ ((h - 1 - y) * w + x) * 4 + c) →
      (ys.foldl (fun p y => fillGrayRow w h vals y p) png) j = png j := by
  intro ys
  induction ys with
  | nil => intro png j _; rfl
  | cons y rest ih =>
    intro png j hj
    rw [List.foldl_cons, ih _ j (fun q hq => hj q (by simp [hq]))]
    unfold fillGrayRow
    apply fillRow_foldl_untouched
    intro x hx c hc
    exact hj y (by simp) x (List.mem_range.mp hx) c hc

/-- The grayscale raster fill writes source row y into raster row
h - 1 - y: the output rows are vertically flipped. -/
theorem fillGray_at (w h : Nat) (vals : List Nat) (y x c : Nat)
    (hy : y < h) (hx : x < w) (hc : c < 4) :
    fillGray w h vals (((h - 1 - y) * w + x) * 4 + c) =
      (if c = 3 then 255 else vals.getD (y * w + x) 0) := by
  unfold fillGray
  have hsplit : List.range h = List.range (y + 1) ++
      (List.range (h - (y + 1))).map (fun t => (y + 1) + t) := by
    rw [← List.range_add]
    congr 1
    omega
  rw [hsplit, List.foldl_append]
  rw [fillRows_foldl_untouched w h vals _ _ _ ?later]
  · rw [List.range_succ, List.foldl_append, List.foldl_cons, List.foldl_nil]
    exact fillGrayRow_at w h vals y _ x hx c hc
  · intro q hq x' hx' c' hc'
    rcases List.mem_map.mp hq with ⟨t, ht, rfl⟩
    have hq' : y + 1 + t < h := by
      have := List.mem_range.mp ht
      omega
    have hrow : h - 1 - y ≠ h - 1 - (y + 1 + t) := by omega
    have hAB := rowcol_ne w (h - 1 - y) (h - 1 - (y + 1 + t)) x x' hx hx' hrow
    omega

end Egami

namespace Egami

/-- Body of the inner RGB loop for one (y, x): reads the three channel
values at srcIdx = (y*width + x)*3 and writes RGBA at the flipped
dstIdx = ((height - 1 - y)*width + x) << 2. -/
def fillRGBPixel (w h : Nat) (rgb : List Nat) (y x : Nat)
    (png : Nat → Nat) : Nat → Nat :=
  let srcIdx := (y * w + x) * 3
  let dstIdx := ((h - 1 - y) * w + x) * 4
  updAt (updAt (updAt (updAt png dstIdx (rgb.getD srcIdx 0))
    (dstIdx + 1) (rgb.getD (srcIdx + 1) 0))
    (dstIdx + 2) (rgb.getD (srcIdx + 2) 0)) (dstIdx + 3) 255

/-- Inner RGB loop over x for one source row y. -/
def fillRGBRow (w h : Nat) (rgb : List Nat) (y : Nat)
    (png : Nat → Nat) : Nat → Nat :=
  (List.range w).foldl (fun p x => fillRGBPixel w h rgb y x p) png

/-- RGB PNG fill: both loops, starting from a zero-filled buffer. -/
def fillRGB (w h : Nat) (rgb : List Nat) : Nat → Nat :=
  (List.range h).foldl (fun p y => fillRGBRow w h rgb y p) (fun _ => 0)

theorem fillRGBPixel_untouched (w h : Nat) (rgb : List Nat) (y x : Nat)
    (png : Nat → Nat) (j : Nat)
    (hj : ∀ c, c < 4 → j ≠ ((h - 1 - y) * w + x) * 4 + c) :
    fillRGBPixel w h rgb y x png j = png j := by
  unfold fillRGBPixel updAt
  have h0 := hj 0 (by omega)
  have h1 := hj 1 (by omega)
  have h2 := hj 2 (by omega)
  have h3 := hj 3 (by omega)
  rw [if_neg (by omega), if_neg (by omega), if_neg (by omega),
    if_neg (by omega)]

theorem fillRGBPixel_hit (w h : Nat) (rgb : List Nat) (y x : Nat)
    (png : Nat → Nat) (c : Nat) (hc : c < 4) :
    fillRGBPixel w h rgb y x png (((h - 1 - y) * w + x) * 4 + c) =
      (if c = 3 then 255 else rgb.getD ((y * w + x) * 3 + c) 0) := by
  unfold fillRGBPixel updAt
  interval_cases c
  · rw [if_neg (by omega), if_neg (by omega), if_neg (by omega),
      if_pos (by omega)]
    norm_num
  · rw [if_neg (by omega), if_neg (by omega), if_pos (by omega)]
    rfl
  · rw [if_neg (by omega), if_pos (by omega)]
    rfl
  · rw [if_pos (by omega)]
    rfl

theorem fillRGBRow_foldl_untouched (w h : Nat) (rgb : List Nat) (y : Nat) :
    ∀ (xs : List Nat) (png : Nat → Nat) (j : Nat),
      (∀ x ∈ xs, ∀ c, c < 4 → j ≠ ((h - 1 - y) * w + x) * 4 + c) →
      (xs.foldl (fun p x => fillRGBPixel w h rgb y x p) png) j = png j := by
  intro xs
  induction xs with
  | nil => intro png j _; rfl
  | cons x rest ih =>
    intro png j hj
    rw [List.foldl_cons, ih _ j (fun q hq => hj q (by simp [hq]))]
    exact fillRGBPixel_untouched w h rgb y x png j (hj x (by simp))

theorem fillRGBRow_at (w h : Nat) (rgb : List Nat) (y : Nat)
    (png : Nat → Nat) (x : Nat) (hx : x < w) (c : Nat) (hc : c < 4) :
    fillRGBRow w h rgb y png (((h - 1 - y) * w + x) * 4 + c) =
      (if c = 3 then 255 else rgb.getD ((y * w + x) * 3 + c) 0) := by
  unfold fillRGBRow
  have hsplit : List.range w = List.range (x + 1) ++
      (List.range (w - (x + 1))).map (fun t => (x + 1) + t) := by
    rw [← List.range_add]
    congr 1
    omega
  rw [hsplit, List.foldl_append]
  rw [fillRGBRow_foldl_untouched w h rgb y _ _ _ ?later]
  · rw [List.range_succ, List.foldl_append, List.foldl_cons, List.foldl_nil]
    exact fillRGBPixel_hit w h rgb y x _ c hc
  · intro q hq c' hc'
    rcases List.mem_map.mp hq with ⟨t, _, rfl⟩
    have hne : (h - 1 - y) * w + x ≠ (h - 1 - y) * w + (x + 1 + t) := by omega
    omega

theorem fillRGBRows_foldl_untouched (w h : Nat) (rgb : List Nat) :
    ∀ (ys : List Nat) (png : Nat → Nat) (j : Nat),
      (∀ y ∈ ys, ∀ x, x < w → ∀ c, c < 4 →
        j ≠ ((h - 1 - y) * w + x) * 4 + c) →
      (ys.foldl (fun p y => fillRGBRow w h rgb y p) png) j = png j := by
  intro ys
  induction ys with
  | nil => intro png j _; rfl
  | cons y rest ih =>
    intro png j hj
    rw [List.foldl_cons, ih _ j (fun q hq => hj q (by simp [hq]))]
    unfold fillRGBRow
    apply fillRGBRow_foldl_untouched
    intro x hx c hc
    exact hj y (by simp) x (List.mem_range.mp hx) c hc

/-- The RGB raster fill writes source row y into raster row h - 1 - y:
the output rows are vertically flipped. -/
theorem fillRGB_at (w h : Nat) (rgb : List Nat) (y x c : Nat)
    (hy : y < h) (hx : x < w) (hc : c < 4) :
    fillRGB w h rgb (((h - 1 - y) * w + x) * 4 + c) =
      (if c = 3 then 255 else rgb.getD ((y * w + x) * 3 + c) 0) := by
  unfold fillRGB
  have hsplit : List.range h = List.range (y + 1) ++
      (List.range (h - (y + 1))).map (fun t => (y + 1) + t) := by
    rw [← List.range_add]
    congr 1
    omega
  rw [hsplit, List.foldl_append]
  rw [fillRGBRows_foldl_untouched w h rgb _ _ _ ?later]
  · rw [List.range_succ, List.foldl_append, List.foldl_cons, List.foldl_nil]
    exact fillRGBRow_at w h rgb y _ x hx c hc
  · intro q hq x' hx' c' hc'
    rcases List.mem_map.mp hq with ⟨t, ht, rfl⟩
    have hq' : y + 1 + t < h := by
      have := List.mem_range.mp ht
      omega
    have hrow : h - 1 - y ≠ h - 1 - (y + 1 + t) := by omega
    have hAB := rowcol_ne w (h - 1 - y) (h - 1 - (y + 1 + t)) x x' hx hx' hrow
    omega

end Egami

namespace Egami

/-- C4: for every axis and every in-range slice index, each extracted
plane sample is read from the flat buffer at linear index
(x + y*nx + z*nx*ny) scaled by the pixel stride (samplesPerPixel), with
the sliced coordinate fixed to the index; the plane sizes are ny×nz for
axis X, nx×nz for axis Y and nx×ny for axis Z; RGB planes read the three
consecutive channel samples; and the raster fills write source row y into
output row height-1-y, so output row 0 holds the plane's highest vertical
coordinate. -/
theorem nii2png_addressing_and_flip (a : List Int)
    (nx ny nz stride slice : Nat) :
    (slice < nx →
      ∃ plane, extractScalar a nx ny nz stride slice 1 = .ok (ny, nz, plane) ∧
        ∀ j k, j < ny → k < nz →
          plane.getD (k * ny + j) 0 =
            a.getD ((slice + j * nx + k * nx * ny) * stride) 0) ∧
    (slice < ny →
      ∃ plane, extractScalar a nx ny nz stride slice 2 = .ok (nx, nz, plane) ∧
        ∀ i k, i < nx → k < nz →
          plane.getD (k * nx + i) 0 =
            a.getD ((i + slice * nx + k * nx * ny) * stride) 0) ∧
    (slice < nz →
      ∃ plane, extractScalar a nx ny nz stride slice 3 = .ok (nx, ny, plane) ∧
        ∀ i j, i < nx → j < ny →
          plane.getD (j * nx + i) 0 =
            a.getD ((i + j * nx + slice * nx * ny) * stride) 0) ∧
    (slice < nz →
      ∃ rgbPlane, extractRGB a nx ny nz stride slice 3 = .ok (nx, ny, rgbPlane) ∧
        ∀ i j ch, i < nx → j < ny → ch < 3 →
          rgbPlane.getD ((j * nx + i) * 3 + ch) 0 =
            a.getD ((i + j * nx + slice * nx * ny) * stride + ch) 0) ∧
    (∀ (vals : List Nat) (w hg y x c : Nat), y < hg → x < w → c < 4 →
      fillGray w hg vals (((hg - 1 - y) * w + x) * 4 + c) =
        (if c = 3 then 255 else vals.getD (y * w + x) 0)) ∧
    (∀ (rgb : List Nat) (w hg y x c : Nat), y < hg → x < w → c < 4 →
      fillRGB w hg rgb (((hg - 1 - y) * w + x) * 4 + c) =
        (if c = 3 then 255 else rgb.getD ((y * w + x) * 3 + c) 0)) := by
  refine ⟨?_, ?_, ?_, ?_, ?_, ?_⟩
  · intro _
    refine ⟨_, rfl, ?_⟩
    intro j k hj hk
    exact plane_sample 0 ny nz
      (fun j k => readSample a ((slice + j * nx + k * nx * ny) * stride)) k j hk hj
  · intro _
    refine ⟨_, rfl, ?_⟩
    intro i k hi hk
    exact plane_sample 0 nx nz
      (fun i k => readSample a ((i + slice * nx + k * nx * ny) * stride)) k i hk hi
  · intro _
    refine ⟨_, rfl, ?_⟩
    intro i j hi hj
    exact plane_sample 0 nx ny
      (fun i j => readSample a ((i + j * nx + slice * nx * ny) * stride)) j i hj hi
  · intro _
    refine ⟨_, rfl, ?_⟩
    intro i j ch hi hj hch
    exact plane_sample_rgb 0 nx ny
      (fun ch i j => readSample a ((i + j * nx + slice * nx * ny) * stride + ch))
      j i ch hj hi hch
  · intro vals w hg y x c hy hx hc
    exact fillGray_at w hg vals y x c hy hx hc
  · intro rgb w hg y x c hy hx hc
    exact fillRGB_at w hg rgb y x c hy hx hc

/-- Witness for the C4 theorem: a 2×2×2 volume, the z=1 plane, and one
flipped raster write. -/
theorem nii2png_addressing_and_flip_witness :
    ∃ plane,
      extractScalar [10, 20, 30, 40, 50, 60, 70, 80] 2 2 2 1 1 3 =
        .ok (2, 2, plane) ∧
      plane.getD 0 0 = 50 ∧
      fillGray 2 2 [1, 2, 3, 4] 8 = 1 := by
  obtain ⟨-, -, h3, -, h5, -⟩ :=
    nii2png_addressing_and_flip [10, 20, 30, 40, 50, 60, 70, 80] 2 2 2 1 1
  obtain ⟨plane, hp, hv⟩ := h3 (by omega)
  refine ⟨plane, hp, ?_, ?_⟩
  · have := hv 0 0 (by omega) (by omega)
    norm_num at this
    simpa using this
  · have := h5 [1, 2, 3, 4] 2 2 0 0 0 (by omega) (by omega) (by omega)
    norm_num at this
    simpa using this

end Egami

namespace Egami

/-- C9: with min and max taken over the plane's samples, every scalar
sample normalizes to round((v - min)/(max - min, or 1 when equal) * 255),
the rounded value always lies in [0, 255] (so the Uint8 store is exact),
and a degenerate plane with max = min maps every sample to 0 with no
division error. -/
theorem normalizeToUint8_spec (l : List ℚ) (mn mx : ℚ)
    (hmn : mn ∈ l) (_hmx : mx ∈ l)
    (hlb : ∀ v ∈ l, mn ≤ v) (hub : ∀ v ∈ l, v ≤ mx) :
    (∀ i, i < l.length →
      0 ≤ jsRound ((l.getD i 0 - mn) /
        (if mx - mn = 0 then 1 else mx - mn) * 255) ∧
      jsRound ((l.getD i 0 - mn) /
        (if mx - mn = 0 then 1 else mx - mn) * 255) ≤ 255 ∧
      (normalizeToUint8 l mn mx).getD i 0 =
        (jsRound ((l.getD i 0 - mn) /
          (if mx - mn = 0 then 1 else mx - mn) * 255)).toNat) ∧
    (mx = mn → normalizeToUint8 l mn mx = List.replicate l.length 0) := by
  have hmnmx : mn ≤ mx := hub mn hmn
  have hround : ∀ v, mn ≤ v → v ≤ mx →
      0 ≤ jsRound ((v - mn) / (if mx - mn = 0 then 1 else mx - mn) * 255) ∧
      jsRound ((v - mn) / (if mx - mn = 0 then 1 else mx - mn) * 255) ≤ 255 := by
    intro v hv1 hv2
    by_cases hdeg : mx - mn = 0
    · have hveq : v = mn := le_antisymm (by linarith) hv1
      rw [if_pos hdeg, hveq]
      norm_num [jsRound]
    · have hpos : 0 < mx - mn := by
        rcases lt_or_eq_of_le hmnmx with hlt | heq
        · linarith
        · exact absurd (by rw [heq]; ring) hdeg
      rw [if_neg hdeg]
      have hq0 : 0 ≤ (v - mn) / (mx - mn) * 255 := by
        have : 0 ≤ (v - mn) / (mx - mn) := by
          apply div_nonneg (by linarith) (le_of_lt hpos)
        linarith
      have hq1 : (v - mn) / (mx - mn) * 255 ≤ 255 := by
        have hr : (v - mn) / (mx - mn) ≤ 1 := by
          rw [div_le_one hpos]
          linarith
        nlinarith
      constructor
      · unfold jsRound
        have : (0 : Int) = ⌊(0 : ℚ)⌋ := by norm_num
        rw [this]
        apply Int.floor_le_floor
        linarith
      · unfold jsRound
        have : (⌊(v - mn) / (mx - mn) * 255 + 1 / 2⌋ : Int) < 256 := by
          rw [Int.floor_lt]
          push_cast
          linarith
        omega
  constructor
  · intro i hi
    have hvm : l.getD i 0 ∈ l := by
      rw [List.getD_eq_getElem _ _ hi]
      exact List.getElem_mem _
    have hb := hround (l.getD i 0) (hlb _ hvm) (hub _ hvm)
    refine ⟨hb.1, hb.2, ?_⟩
    unfold normalizeToUint8
    rw [List.getD_eq_getElem _ _ (by simpa using hi), List.getElem_map,
      ← List.getD_eq_getElem l _ hi]
    have h256 : (jsRound ((l.getD i 0 - mn) /
        (if mx - mn = 0 then 1 else mx - mn) * 255)) % 256 =
        jsRound ((l.getD i 0 - mn) /
          (if mx - mn = 0 then 1 else mx - mn) * 255) := by
      omega
    rw [h256]
  · intro heq
    have hlen : (normalizeToUint8 l mn mx).length = l.length := by
      simp [normalizeToUint8]
    rw [List.eq_replicate_iff]
    refine ⟨hlen, ?_⟩
    intro b hb
    unfold normalizeToUint8 at hb
    rcases List.mem_map.mp hb with ⟨v, hv, rfl⟩
    have hveq : v = mn := le_antisymm (by
      have := hub v hv; rw [heq] at this; exact this) (hlb v hv)
    have hdeg : mx - mn = 0 := by rw [heq]; ring
    rw [if_pos hdeg, hveq]
    norm_num [jsRound]

/-- Witness for the normalization theorem at the degenerate plane
[5, 5, 5, 5]: all zeros, no division error. -/
theorem normalizeToUint8_spec_witness :
    normalizeToUint8 [5, 5, 5, 5] 5 5 = [0, 0, 0, 0] := by
  have h := (normalizeToUint8_spec [5, 5, 5, 5] 5 5 (by norm_num) (by norm_num)
    (by intro v hv; fin_cases hv <;> norm_num)
    (by intro v hv; fin_cases hv <;> norm_num)).2 rfl
  simpa using h

end Egami

namespace Egami

def fileA : DicomFile := { name := "a.dcm", parsed := some { instanceNumber := some 1 } }

def fileB : DicomFile := { name := "b.dcm", parsed := some { instanceNumber := none } }

/-- C5 counterexample: in a partition where one parsed record lacks an
InstanceNumber, the sort is NOT the claimed lexicographic filename order
for the whole partition: the record without an InstanceNumber is compared
numerically as 0 and sorts first, ahead of the alphabetically earlier
file name. -/
theorem series_sort_not_filename_fallback :
    (¬ [fileA, fileB].all (fun f =>
      match f.parsed with
      | some m => m.instanceNumber.isSome
      | none => false)) ∧
    sortSeriesFiles [fileA, fileB] ≠
      claimedSortSeriesFiles [fileA, fileB] := by
  decide

theorem orderedInsert_congr {α : Type} (r s : α → α → Prop)
    [DecidableRel r] [DecidableRel s] (a : α) :
    ∀ (l : List α), (∀ x ∈ l, r a x ↔ s a x) →
      l.orderedInsert r a = l.orderedInsert s a := by
  intro l
  induction l with
  | nil => intro _; rfl
  | cons b t ih =>
    intro h
    unfold List.orderedInsert
    by_cases hr : r a b
    · rw [if_pos hr, if_pos ((h b (by simp)).mp hr)]
    · rw [if_neg hr, if_neg (fun hs => hr ((h b (by simp)).mpr hs)),
        ih (fun x hx => h x (by simp [hx]))]

theorem insertionSort_congr {α : Type} (r s : α → α → Prop)
    [DecidableRel r] [DecidableRel s] :
    ∀ l : List α, (∀ x ∈ l, ∀ y ∈ l, r x y ↔ s x y) →
      l.insertionSort r = l.insertionSort s := by
  intro l
  induction l with
  | nil => intro _; rfl
  | cons a t ih =>
    intro h
    unfold List.insertionSort
    rw [ih (fun x hx y hy => h x (by simp [hx]) y (by simp [hy]))]
    apply orderedInsert_congr
    intro x hx
    have hx' : x ∈ t := (List.mem_insertionSort s).mp hx
    exact h a (by simp) x (by simp [hx'])

/-- C5 amended: when every file of the partition reads and parses, the
sort is purely numeric on InstanceNumber || 0 (a missing InstanceNumber
participates as 0 instead of forcing a filename sort); the result is
sorted by that key and is a permutation of the input.  The filename
comparison is used only for pairs where reading or parsing throws. -/
theorem sortSeriesFiles_numeric_when_all_parse (files : List DicomFile)
    (hp : ∀ f ∈ files, (DicomFile.parsed f).isSome) :
    sortSeriesFiles files =
      files.insertionSort (fun a b => instKey a ≤ instKey b) ∧
    (sortSeriesFiles files).Sorted (fun a b => instKey a ≤ instKey b) ∧
    List.Perm (sortSeriesFiles files) files := by
  have hcong : sortSeriesFiles files =
      files.insertionSort (fun a b => instKey a ≤ instKey b) := by
    unfold sortSeriesFiles
    apply insertionSort_congr
    intro x hx y hy
    have hx' := hp x hx
    have hy' := hp y hy
    unfold fileLE instKey
    rcases hxp : x.parsed with _ | mx
    · rw [hxp] at hx'; simp at hx'
    rcases hyp : y.parsed with _ | my
    · rw [hyp] at hy'; simp at hy'
    simp
  haveI htotal : IsTotal DicomFile (fun a b => instKey a ≤ instKey b) :=
    ⟨fun a b => le_total _ _⟩
  haveI htrans : IsTrans DicomFile (fun a b => instKey a ≤ instKey b) :=
    ⟨fun _ _ _ hab hbc => le_trans hab hbc⟩
  refine ⟨hcong, ?_, ?_⟩
  · rw [hcong]
    exact List.sorted_insertionSort _ files
  · unfold sortSeriesFiles
    exact List.perm_insertionSort _ _

/-- Witness for the amended C5 theorem: both files parse, one lacking an
InstanceNumber, and the numeric order [fileB, fileA] results. -/
theorem sortSeriesFiles_numeric_when_all_parse_witness :
    sortSeriesFiles [fileA, fileB] = [fileB, fileA] := by
  have h := (sortSeriesFiles_numeric_when_all_parse [fileA, fileB]
    (by decide)).1
  rw [h]
  decide

end Egami

namespace Egami

/-- Statistical population of the window heuristic: nonzero rendered
pixels, scaled by 16. -/
def windowPopulation (pixels : List Nat) : List Nat :=
  (pixels.filter (fun v => 0 < v)).map (fun v => v * 16)

/-- foldl of Nat.min over a constant list folds to the min of the seed
and the constant. -/
theorem foldl_min_replicate (a : Nat) :
    ∀ (n v : Nat), (List.replicate n a).foldl Nat.min v =
      if n = 0 then v else Nat.min v a := by
  intro n
  induction n with
  | zero => intro v; rfl
  | succ m ih =>
    intro v
    rw [List.replicate_succ, List.foldl_cons, ih (Nat.min v a)]
    rcases m with _ | m
    · simp
    · simp

/-- foldl of Nat.max over a constant list folds to the max of the seed
and the constant. -/
theorem foldl_max_replicate (a : Nat) :
    ∀ (n v : Nat), (List.replicate n a).foldl Nat.max v =
      if n = 0 then v else Nat.max v a := by
  intro n
  induction n with
  | zero => intro v; rfl
  | succ m ih =>
    intro v
    rw [List.replicate_succ, List.foldl_cons, ih (Nat.max v a)]
    rcases m with _ | m
    · simp
    · simp

/-- C6 counterexample: on a population of exactly 1000 samples the source
takes the min/max fallback (its threshold is strictly more than 1000,
yielding width 24, center 24 here), while the claimed rule (at least
1000) prescribes the percentile path (width 0, center 16 here); the two
disagree on 999 ones and one 2. -/
theorem window_threshold_counterexample :
    ((List.replicate 999 1 ++ [2]).filter (fun v => 0 < v)).length = 1000 ∧
    calculateOptimalWindowLevel (List.replicate 999 1 ++ [2]) ≠
      computeWindowClaimed (List.replicate 999 1 ++ [2]) := by
  have hfilter : (List.replicate 999 1 ++ [2]).filter (fun v => 0 < v) =
      List.replicate 999 1 ++ [2] := by
    rw [List.filter_eq_self]
    intro a ha
    rcases List.mem_append.mp ha with h | h
    · rcases List.eq_of_mem_replicate h with rfl; decide
    · rcases List.mem_singleton.mp h with rfl; decide
  have hpv : ((List.replicate 999 1 ++ [2]).filter
      (fun v => 0 < v)).map (fun v => v * 16) =
      List.replicate 999 16 ++ [32] := by
    rw [hfilter, List.map_append, List.map_replicate]
    congr 1
  have hL : (List.replicate 999 16 ++ [32] : List Nat).length = 1000 := by
    rw [List.length_append, List.length_replicate]
    decide
  have hmin : jsMin (List.replicate 999 16 ++ [32]) = 16 := by
    rw [show (999 : Nat) = 998 + 1 from rfl, List.replicate_succ,
      List.cons_append]
    show (List.replicate 998 16 ++ [32]).foldl Nat.min 16 = 16
    rw [List.foldl_append, foldl_min_replicate, if_neg (by decide)]
    decide
  have hmax : jsMax (List.replicate 999 16 ++ [32]) = 32 := by
    rw [show (999 : Nat) = 998 + 1 from rfl, List.replicate_succ,
      List.cons_append]
    show (List.replicate 998 16 ++ [32]).foldl Nat.max 16 = 32
    rw [List.foldl_append, foldl_max_replicate, if_neg (by decide)]
    decide
  have hsorted : (List.replicate 999 16 ++ [32] : List Nat).Sorted
      (· ≤ ·) := by
    rw [List.Sorted, List.pairwise_append]
    refine ⟨List.pairwise_replicate.mpr (Or.inr (Nat.le_refl 16)),
      List.pairwise_singleton _ _, ?_⟩
    intro x hx y hy
    rcases List.eq_of_mem_replicate hx with rfl
    rcases List.mem_singleton.mp hy with rfl
    decide
  have hsort : (List.replicate 999 16 ++ [32] : List Nat).insertionSort
      (· ≤ ·) = List.replicate 999 16 ++ [32] :=
    List.eq_of_perm_of_sorted (List.perm_insertionSort _ _)
      (List.sorted_insertionSort _ _) hsorted
  have hget980 : (List.replicate 999 16 ++ [32] : List Nat).getD 980 0 =
      16 := by
    rw [List.getD_append _ _ _ _ (by rw [List.length_replicate]; decide),
      List.getD_eq_getElem _ _ (by rw [List.length_replicate]; decide),
      List.getElem_replicate]
  have hget20 : (List.replicate 999 16 ++ [32] : List Nat).getD 20 0 =
      16 := by
    rw [List.getD_append _ _ _ _ (by rw [List.length_replicate]; decide),
      List.getD_eq_getElem _ _ (by rw [List.length_replicate]; decide),
      List.getElem_replicate]
  have hcode : calculateOptimalWindowLevel (List.replicate 999 1 ++ [2]) =
      some (24, 24) := by
    unfold calculateOptimalWindowLevel
    rw [hpv, if_neg (by rw [hL]; decide), if_pos (by rw [hL]; decide),
      hmin, hmax]
    norm_num
  have hclaimed : computeWindowClaimed (List.replicate 999 1 ++ [2]) =
      some (0, 16) := by
    unfold computeWindowClaimed
    rw [hpv, if_pos (by rw [hL])]
    simp only [hsort, hL, show (1000 * 2 / 100 : Nat) = 20 from rfl,
      show (1000 * 98 / 100 : Nat) = 980 from rfl, hget980, hget20]
    norm_num
  refine ⟨?_, ?_⟩
  · rw [hfilter, List.length_append, List.length_replicate]
    decide
  · rw [hcode, hclaimed]
    simp only [ne_eq, Option.some.injEq, Prod.mk.injEq]
    norm_num

/-- C6 amended: zero samples are excluded and survivors scaled by 16;
with an empty population the result is null; with a population of
1 to 1000 samples the min/max fallback applies; only with STRICTLY more
than 1000 samples does the 2nd/98th-percentile rule apply, over an
ascending sorted permutation of the population. -/
theorem calculateOptimalWindowLevel_spec (pixels : List Nat) :
    (windowPopulation pixels = [] →
      calculateOptimalWindowLevel pixels = none) ∧
    (0 < (windowPopulation pixels).length →
      (windowPopulation pixels).length ≤ 1000 →
      calculateOptimalWindowLevel pixels =
        some (((jsMax (windowPopulation pixels) : ℚ) -
            (jsMin (windowPopulation pixels) : ℚ)) * (3 / 2),
          ((jsMax (windowPopulation pixels) : ℚ) +
            (jsMin (windowPopulation pixels) : ℚ)) / 2)) ∧
    (1000 < (windowPopulation pixels).length →
      ∃ sorted, sorted.Sorted (fun a b => a ≤ b) ∧
        List.Perm sorted (windowPopulation pixels) ∧
        calculateOptimalWindowLevel pixels =
          some ((((sorted.getD
                ((windowPopulation pixels).length * 98 / 100) 0 : ℚ)) -
              ((sorted.getD
                ((windowPopulation pixels).length * 2 / 100) 0 : ℚ))) * (6 / 5),
            (((sorted.getD
                ((windowPopulation pixels).length * 98 / 100) 0 : ℚ)) +
              ((sorted.getD
                ((windowPopulation pixels).length * 2 / 100) 0 : ℚ))) / 2)) := by
  refine ⟨?_, ?_, ?_⟩
  · intro h0
    unfold calculateOptimalWindowLevel
    unfold windowPopulation at h0
    rw [h0]
    norm_num
  · intro hpos hle
    unfold windowPopulation at hpos hle
    unfold calculateOptimalWindowLevel windowPopulation
    rw [if_neg (by omega), if_pos (by omega)]
  · intro hgt
    unfold windowPopulation at hgt
    refine ⟨(windowPopulation pixels).insertionSort (fun a b => a ≤ b),
      List.sorted_insertionSort _ _, List.perm_insertionSort _ _, ?_⟩
    unfold calculateOptimalWindowLevel windowPopulation
    rw [if_pos (by omega)]

/-- Witness for the amended C6 theorem at the three-pixel input [3, 0, 7]:
the zero is excluded, the fallback applies and yields width 96, center
80. -/
theorem calculateOptimalWindowLevel_spec_witness :
    calculateOptimalWindowLevel [3, 0, 7] = some (96, 80) := by
  have h := (calculateOptimalWindowLevel_spec [3, 0, 7]).2.1
    (by decide) (by decide)
  rw [h]
  have h1 : jsMax (windowPopulation [3, 0, 7]) = 112 := by decide
  have h2 : jsMin (windowPopulation [3, 0, 7]) = 48 := by decide
  rw [h1, h2]
  norm_num

end Egami
